import Mathlib

/-!
Verification development for the segre file organizer.

The JavaScript sources (src/utils.js, src/categories.js, src/logger.js,
src/organizer.js) are shallowly embedded below.  File and directory names
are lists of characters, paths are segment lists, the disk is an explicit
finite state, and the asynchronous sequential control flow of the source is
rendered as sequential folds.  Environmental failure of fs.rename is
modelled by a boolean oracle passed in as a parameter.
-/

namespace Segre

/-- Characters of one file or directory name.  Names are lists of
characters so that list concatenation lemmas apply directly. -/
abbrev Name := List Char

/-- Helper turning a list of string literals into names. -/
def strs (l : List String) : List Name := l.map String.toList

/-- Rendering of one decimal digit as a character, as JavaScript template
interpolation renders it; the catch-all branch is unreachable for digits. -/
def digitChar (d : Nat) : Char :=
  if d = 0 then '0' else if d = 1 then '1' else if d = 2 then '2'
  else if d = 3 then '3' else if d = 4 then '4' else if d = 5 then '5'
  else if d = 6 then '6' else if d = 7 then '7' else if d = 8 then '8'
  else if d = 9 then '9' else '*'

/-- Numeric value of a digit character, used only in proofs to invert
digit rendering. -/
def charVal (c : Char) : Nat := c.toNat - 48

/-- Fuelled decimal rendering, most significant digit first.  The fuel is
an upper bound on the number of digits; natDigits always passes enough. -/
def natDigitsAux (n : Nat) : Nat → List Char
  | 0 => []
  | fuel + 1 => if n = 0 then [] else natDigitsAux (n / 10) fuel ++ [digitChar (n % 10)]

/-- Decimal rendering of a natural number, matching the JavaScript
interpolation of a number into a template string. -/
def natDigits (n : Nat) : Name :=
  if n = 0 then ['0'] else natDigitsAux n n

/-- Decimal parsing, used in proofs to show digit rendering is injective. -/
def unDigits (l : List Char) : Nat := l.foldl (fun acc c => acc * 10 + charVal c) 0

/-- A directory path: segment names from the filesystem root. -/
abbrev DirPath := List Name

/-- An absolute file path split into containing directory and file name,
mirroring path.dirname and path.basename of the source. -/
structure FsPath where
  dir : DirPath
  base : Name
deriving DecidableEq

/-- Extension of a file name, modelling path.extname for ordinary names:
the segment from the last dot onwards, unless that dot is the leading
character of the name (hidden files have no extension). -/
def extname (n : Name) : Name :=
  match n.reverse.findIdx? (fun c => c = '.') with
  | none => []
  | some j =>
    let i := n.length - 1 - j
    if i = 0 then [] else n.drop i

/-- Base name with the extension stripped, modelling
path.basename(targetPath, ext) as used in getUniqueFilePath. -/
def baseNameNoExt (n : Name) : Name := n.take (n.length - (extname n).length)

/-- Candidate destinations probed by getUniqueFilePath: index zero is the
desired path itself, index k+1 inserts the counter value k+1 between the
base name and the extension, exactly as the source builds its template
string from the original target path. -/
def candidatePath (p : FsPath) : Nat → FsPath
  | 0 => p
  | k + 1 =>
    ⟨p.dir, baseNameNoExt p.base ++ ('(' :: natDigits (k + 1)) ++ (')' :: extname p.base)⟩

/-- Fuelled unfolding of the while loop of getUniqueFilePath; k is the
index of the candidate currently probed against the disk.  The fuel passed
by getUniqueFilePath is provably always sufficient. -/
def resolveFrom (disk : List FsPath) (p : FsPath) (k : Nat) : Nat → FsPath
  | 0 => candidatePath p k
  | fuel + 1 =>
    if candidatePath p k ∈ disk then resolveFrom disk p (k + 1) fuel
    else candidatePath p k

/-- Model of getUniqueFilePath of src/utils.js: probe the desired path and
then counter-decorated variants of it until one does not exist on the
disk, the disk being the finite list of files currently present. -/
def getUniqueFilePath (disk : List FsPath) (targetPath : FsPath) : FsPath :=
  resolveFrom disk targetPath 0 (disk.length + 1)

/- ## Category resolver (src/categories.js) -/

/-- Lower-casing of a name, modelling String.prototype.toLowerCase on the
ASCII extensions the categories use. -/
def toLowerName (n : Name) : Name := n.map Char.toLower

/-- Iteration of getCategory over the ordered category entries: the first
category whose extension list contains the lowered extension wins. -/
def getCategoryLoop (extLower : Name) : List (Name × List Name) → Name
  | [] => ("Others").toList
  | (category, extensions) :: rest =>
    if extLower ∈ extensions then category else getCategoryLoop extLower rest

/-- Model of getCategory of src/categories.js.  An empty extension is
falsy in the source and resolves to the fallback immediately. -/
def getCategory (extension : Name) (categories : List (Name × List Name)) : Name :=
  if extension = [] then ("Others").toList
  else getCategoryLoop (toLowerName extension) categories

/-- The built-in defaultCategories object of src/categories.js, in its
defined key order. -/
def defaultCategories : List (Name × List Name) :=
  [(("Archives").toList, strs [".zip", ".tar", ".gz", ".rar", ".7z", ".bz2", ".xz"]),
   (("Audio").toList, strs [".mp3", ".wav", ".flac", ".aac", ".ogg", ".wma", ".m4a"]),
   (("Code").toList, strs [".js", ".ts", ".css", ".html", ".py", ".java", ".cpp", ".c",
      ".h", ".jsx", ".tsx", ".vue", ".rb", ".go", ".rs", ".php", ".swift", ".kt"]),
   (("Documents").toList, strs [".pdf", ".doc", ".docx", ".xls", ".xlsx", ".ppt", ".pptx",
      ".txt", ".rtf", ".odt", ".ods", ".odp", ".md", ".csv"]),
   (("Images").toList, strs [".jpg", ".jpeg", ".png", ".gif", ".bmp", ".tiff", ".svg",
      ".webp", ".ico", ".raw", ".psd", ".ai"]),
   (("Videos").toList, strs [".mp4", ".mkv", ".avi", ".mov", ".wmv", ".flv", ".webm",
      ".m4v", ".mpeg", ".mpg"]),
   (("Executables").toList, strs [".exe", ".msi", ".dmg", ".app", ".deb", ".rpm", ".sh",
      ".bat", ".cmd"]),
   (("Fonts").toList, strs [".ttf", ".otf", ".woff", ".woff2", ".eot"]),
   (("Others").toList, strs [])]

/- ## File discovery (src/organizer.js, collectFilesRecursively and the
non-recursive branch of organizeDirectory) -/

/-- The reserved operation-log filename of src/logger.js. -/
def LOG_FILE_NAME : Name := (".segre-log.json").toList

/-- The blank-argument test of organizeDirectory and undoOrganize: the
target directory argument trims to the empty string exactly when every
character is whitespace (the empty, falsy string included). -/
def isBlankArg (targetDir : String) : Bool := targetDir.toList.all Char.isWhitespace

/-- Month abbreviations of getMonthName in src/utils.js; an out-of-range
index renders as JavaScript would stringify undefined, though getMonth
only ever produces zero to eleven. -/
def getMonthName (month : Nat) : Name :=
  (strs ["Jan", "Feb", "Mar", "Apr", "May", "Jun",
         "Jul", "Aug", "Sep", "Oct", "Nov", "Dec"]).getD month ("undefined").toList

/-- String form of a path, as path.join produces it, for the substring
test of shouldIgnore. -/
def joinPath (p : DirPath) : Name := List.intercalate ['/'] p

/-- Substring test on names, modelling String.prototype.includes. -/
def containsSeq (pattern : Name) (l : Name) : Bool :=
  pattern.isPrefixOf l ||
    match l with
    | [] => false
    | _ :: rest => containsSeq pattern rest

/-- Model of shouldIgnore of src/utils.js: a pattern is an extension
wildcard, an exact file name, or a substring of the whole path string. -/
def shouldIgnore (filePath : DirPath) (ignorePatterns : List Name) : Bool :=
  if ignorePatterns.isEmpty then false
  else
    let fileName := filePath.getLastD []
    ignorePatterns.any fun pattern =>
      if pattern.take 2 = ['*', '.'] then (pattern.drop 1).isSuffixOf fileName
      else fileName == pattern || containsSeq pattern (joinPath filePath)

/-- A directory tree as fs.readdir exposes it, children in readdir
order. -/
inductive FTree where
  | file (name : Name) (mtimeYear : Nat) (mtimeMonth : Nat)
  | dir (name : Name) (children : List FTree)

/-- Name of a directory entry. -/
def FTree.name : FTree → Name
  | .file n _ _ => n
  | .dir n _ => n

/-- A discovered candidate file: name, containing directory and the
modification time fields the organizer reads from stats.mtime. -/
structure FileEntry where
  name : Name
  dir : DirPath
  mtimeYear : Nat
  mtimeMonth : Nat
deriving DecidableEq

/-- Absolute path of a discovered file. -/
def FileEntry.path (f : FileEntry) : FsPath := ⟨f.dir, f.name⟩

/-- Model of collectFilesRecursively of src/organizer.js over the entry
list of the directory dirPath: the log file is skipped everywhere, ignored
patterns are skipped, entries named like a category folder are skipped at
the base directory, files are collected, and directories are entered only
in recursive mode and only when not named like a category folder. -/
def collectFilesRecursively (entries : List FTree) (dirPath basePath : DirPath)
    (categoryFolders : List Name) (ignorePatterns : List Name) (recursive : Bool) :
    List FileEntry :=
  match entries with
  | [] => []
  | entry :: rest =>
    let entryName := entry.name
    let entryPath := dirPath ++ [entryName]
    if entryName = LOG_FILE_NAME then
      collectFilesRecursively rest dirPath basePath categoryFolders ignorePatterns recursive
    else if shouldIgnore entryPath ignorePatterns then
      collectFilesRecursively rest dirPath basePath categoryFolders ignorePatterns recursive
    else if dirPath = basePath ∧ entryName ∈ categoryFolders then
      collectFilesRecursively rest dirPath basePath categoryFolders ignorePatterns recursive
    else
      match entry with
      | .file n y m =>
        ⟨n, dirPath, y, m⟩ ::
          collectFilesRecursively rest dirPath basePath categoryFolders ignorePatterns recursive
      | .dir _ children =>
        if recursive then
          if entryName ∈ categoryFolders then
            collectFilesRecursively rest dirPath basePath categoryFolders ignorePatterns recursive
          else
            collectFilesRecursively children entryPath basePath categoryFolders ignorePatterns
                recursive ++
              collectFilesRecursively rest dirPath basePath categoryFolders ignorePatterns
                recursive
        else
          collectFilesRecursively rest dirPath basePath categoryFolders ignorePatterns recursive
termination_by sizeOf entries
decreasing_by all_goals simp_wf <;> omega

/-- Model of the non-recursive discovery block of organizeDirectory: the
log file, ignored patterns and category-named entries are skipped at the
target directory, plain files are collected, directories are ignored. -/
def discoverTopLevel (entries : List FTree) (basePath : DirPath)
    (categoryFolders : List Name) (ignorePatterns : List Name) : List FileEntry :=
  match entries with
  | [] => []
  | entry :: rest =>
    let entryName := entry.name
    let filePath := basePath ++ [entryName]
    if entryName = LOG_FILE_NAME then
      discoverTopLevel rest basePath categoryFolders ignorePatterns
    else if shouldIgnore filePath ignorePatterns then
      discoverTopLevel rest basePath categoryFolders ignorePatterns
    else if entryName ∈ categoryFolders then
      discoverTopLevel rest basePath categoryFolders ignorePatterns
    else
      match entry with
      | .file n y m => ⟨n, basePath, y, m⟩ :: discoverTopLevel rest basePath categoryFolders
          ignorePatterns
      | .dir _ _ => discoverTopLevel rest basePath categoryFolders ignorePatterns

/- ## Operation log (src/logger.js) -/

/-- One recorded move: original path and the path the file was moved
to. -/
structure MoveOp where
  original : FsPath
  movedTo : FsPath
deriving DecidableEq

/-- One batch of the operation log. -/
structure Batch where
  timestamp : Nat
  operations : List MoveOp
deriving DecidableEq

/-- Content of the log file on disk: either a parseable batch array or
bytes that JSON.parse rejects. -/
inductive LogFileContent where
  | valid (batches : List Batch)
  | corrupt
deriving DecidableEq

/-- The filesystem state: the files present, the directories present and
the per-directory operation-log files. -/
structure Sys where
  files : List FsPath
  dirs : List DirPath
  logs : List (DirPath × LogFileContent)
deriving DecidableEq

/-- Content of the log file of a directory, when that file exists. -/
def lookupLog (logs : List (DirPath × LogFileContent)) (root : DirPath) :
    Option LogFileContent :=
  match logs with
  | [] => none
  | (d, c) :: rest => if d = root then some c else lookupLog rest root

/-- Write the log file of a directory. -/
def setLog (logs : List (DirPath × LogFileContent)) (root : DirPath)
    (c : LogFileContent) : List (DirPath × LogFileContent) :=
  (root, c) :: logs.filter (fun e => decide (e.1 ≠ root))

/-- Delete the log file of a directory, as fs.unlink does. -/
def removeLog (logs : List (DirPath × LogFileContent)) (root : DirPath) :
    List (DirPath × LogFileContent) :=
  logs.filter (fun e => decide (e.1 ≠ root))

/-- Model of saveLog of src/logger.js: read any existing log, treating a
missing or unparsable file as empty, append a batch and write back. -/
def saveLog (s : Sys) (targetDir : DirPath) (operations : List MoveOp)
    (timestamp : Nat) : Sys :=
  let existingLog :=
    match lookupLog s.logs targetDir with
    | some (.valid l) => l
    | _ => []
  { s with logs := setLog s.logs targetDir (.valid (existingLog ++ [⟨timestamp, operations⟩])) }

/-- Model of readLog of src/logger.js: the parsed log, or none when the
file is missing or its content fails to parse. -/
def readLog (s : Sys) (targetDir : DirPath) : Option (List Batch) :=
  match lookupLog s.logs targetDir with
  | some (.valid l) => some l
  | _ => none

/-- Model of updateLog of src/logger.js: write the log back when it is
non-empty, delete the log file when it is empty. -/
def updateLog (s : Sys) (targetDir : DirPath) (log : List Batch) : Sys :=
  if log.length > 0 then { s with logs := setLog s.logs targetDir (.valid log) }
  else { s with logs := removeLog s.logs targetDir }

/- ## Move engine and undo engine (src/organizer.js) -/

/-- Run options of the organizer.  confirm is the interactive yes/no
collaborator; renameOk tells whether a given fs.rename call succeeds,
modelling environmental per-item failure such as permission errors. -/
structure Options where
  recursive : Bool
  dryRun : Bool
  interactive : Bool
  byDate : Bool
  confirm : FsPath → FsPath → Bool
  renameOk : FsPath → FsPath → Bool

/-- One physically performed fs.rename, together with the files present
on disk at the moment it ran. -/
structure RenameEvent where
  src : FsPath
  dest : FsPath
  diskBefore : List FsPath
deriving DecidableEq

/-- State threaded through the organize loop. -/
structure OrgState where
  sys : Sys
  operations : List MoveOp
  processedCount : Nat
  skippedCount : Nat
  trace : List RenameEvent
deriving DecidableEq

/-- Effect of fs.mkdir with the recursive flag: the directory and all its
ancestors exist afterwards. -/
def mkdirp (dirs : List DirPath) (p : DirPath) : List DirPath :=
  p.inits.foldl (fun acc q => if q ∈ acc then acc else acc ++ [q]) dirs

/-- Destination directory chosen for one file by the organize loop: by
modification date or by category, exactly as lines 231 to 241 of
organizeDirectory compute targetSubDir. -/
def orgTargetSubDir (root : DirPath) (categories : List (Name × List Name))
    (opts : Options) (file : FileEntry) : DirPath :=
  if opts.byDate then root ++ [natDigits file.mtimeYear, getMonthName file.mtimeMonth]
  else root ++ [getCategory (toLowerName (extname file.name)) categories]

/-- Unique destination path actually used for one file given the current
disk, the newFilePath of the organize loop. -/
def orgDest (root : DirPath) (categories : List (Name × List Name)) (opts : Options)
    (disk : List FsPath) (file : FileEntry) : FsPath :=
  getUniqueFilePath disk ⟨orgTargetSubDir root categories opts file, file.name⟩

/-- One iteration of the organize loop of organizeDirectory: compute the
destination directory by date or by category, resolve a unique destination
path, then honour dry-run, the interactive decision, and finally create
the destination directory and attempt the move; a recorded operation,
counter update and trace event happen only when the rename succeeds. -/
def orgStep (root : DirPath) (categories : List (Name × List Name)) (opts : Options)
    (st : OrgState) (file : FileEntry) : OrgState :=
  let targetSubDir := orgTargetSubDir root categories opts file
  let newFilePath := orgDest root categories opts st.sys.files file
  if opts.dryRun then st
  else if opts.interactive ∧ ¬ opts.confirm file.path newFilePath then
    { st with skippedCount := st.skippedCount + 1 }
  else
    let sysMk : Sys := { st.sys with dirs := mkdirp st.sys.dirs targetSubDir }
    if opts.renameOk file.path newFilePath ∧ file.path ∈ st.sys.files then
      { st with
        sys := { sysMk with files := sysMk.files.erase file.path ++ [newFilePath] },
        operations := st.operations ++ [⟨file.path, newFilePath⟩],
        processedCount := st.processedCount + 1,
        trace := st.trace ++ [⟨file.path, newFilePath, st.sys.files⟩] }
    else { st with sys := sysMk }

/-- Whether a directory has any entry directly inside it: a file whose
containing directory it is, or an immediate subdirectory. -/
def dirHasChild (files : List FsPath) (dirs : List DirPath) (d : DirPath) : Bool :=
  files.any (fun f => decide (f.dir = d)) ||
    dirs.any (fun d2 => decide (d2.dropLast = d ∧ d2.length = d.length + 1))

/-- Directories that one pass of cleanupEmptyDirectories removes: strictly
below the root, reached without crossing a category-named segment, and
currently empty. -/
def removableDir (root : DirPath) (categoryFolders : List Name) (files : List FsPath)
    (dirs : List DirPath) (d : DirPath) : Bool :=
  decide (d.take root.length = root) && decide (root.length < d.length) &&
    decide (∀ seg ∈ d.drop root.length, seg ∉ categoryFolders) &&
    !dirHasChild files dirs d

/-- One bottom-up pass of cleanupEmptyDirectories. -/
def cleanupPass (root : DirPath) (categoryFolders : List Name) (files : List FsPath)
    (dirs : List DirPath) : List DirPath :=
  dirs.filter (fun d => !removableDir root categoryFolders files dirs d)

/-- Model of cleanupEmptyDirectories of src/organizer.js: cascading
best-effort removal of empty non-category directories, as a bounded
fixpoint of single passes; it only ever touches directories. -/
def cleanupEmptyDirectories (root : DirPath) (categoryFolders : List Name)
    (files : List FsPath) (dirs : List DirPath) : List DirPath :=
  (cleanupPass root categoryFolders files)^[dirs.length] dirs

/-- Result reported by an organize run. -/
inductive OrgOutcome where
  | noFiles
  | done (operations : List MoveOp) (processedCount skippedCount : Nat)
deriving DecidableEq

/-- The whole file-processing loop of organizeDirectory. -/
def orgLoop (root : DirPath) (categories : List (Name × List Name)) (opts : Options)
    (s : Sys) (filesToProcess : List FileEntry) : OrgState :=
  List.foldl (orgStep root categories opts) ⟨s, [], 0, 0, []⟩ filesToProcess

/-- The tail of organizeDirectory after the loop: save the batch when at
least one move succeeded and the run is not dry, then clean up empty
directories after a recursive non-dry run that moved something. -/
def orgSaveCleanup (root : DirPath) (categories : List (Name × List Name))
    (opts : Options) (timestamp : Nat) (final : OrgState) : Sys :=
  let s1 :=
    if final.operations.length > 0 ∧ ¬ opts.dryRun then
      saveLog final.sys root final.operations timestamp
    else final.sys
  if opts.recursive ∧ ¬ opts.dryRun ∧ final.operations.length > 0 then
    { s1 with dirs := cleanupEmptyDirectories root (categories.map Prod.fst) s1.files s1.dirs }
  else s1

/-- Model of organizeDirectory of src/organizer.js.  The candidate list is
the output of discovery (collectFilesRecursively or the non-recursive
block), resolvePath stands for path.resolve, and timestamp for the batch
timestamp.  The returned trace lists every fs.rename performed. -/
def organizeDirectory (targetDir : String) (resolvePath : String → DirPath)
    (filesToProcess : List FileEntry) (categories : List (Name × List Name))
    (opts : Options) (timestamp : Nat) (s : Sys) :
    Sys × List RenameEvent × Except String OrgOutcome :=
  if isBlankArg targetDir then
    (s, [], .error ("Target directory must be a non-empty string"))
  else
    let root := resolvePath targetDir
    if ¬ (root ∈ s.dirs ∨ ∃ f ∈ s.files, f.dir ++ [f.base] = root) then
      (s, [], .error ("Directory does not exist"))
    else if root ∉ s.dirs then
      (s, [], .error ("Path is not a directory"))
    else if filesToProcess.length = 0 then
      (s, [], .ok .noFiles)
    else
      let final := orgLoop root categories opts s filesToProcess
      (orgSaveCleanup root categories opts timestamp final, final.trace,
        .ok (.done final.operations final.processedCount final.skippedCount))

/-- Result reported by an undo run. -/
inductive UndoOutcome where
  | noLog
  | noOps
  | completed (restoredCount errorCount : Nat)
deriving DecidableEq

/-- State threaded through the undo loop. -/
structure UndoState where
  sys : Sys
  restoredCount : Nat
  errorCount : Nat
  trace : List RenameEvent
deriving DecidableEq

/-- One iteration of the undo loop of undoOrganize: check the moved file
still exists, resolve a unique path at the original location and move the
file back; any failure only increments the error counter. -/
def undoStep (renameOk : FsPath → FsPath → Bool) (st : UndoState) (op : MoveOp) :
    UndoState :=
  if op.movedTo ∈ st.sys.files then
    let restorePath := getUniqueFilePath st.sys.files op.original
    if renameOk op.movedTo restorePath then
      { st with
        sys := { st.sys with files := st.sys.files.erase op.movedTo ++ [restorePath] },
        restoredCount := st.restoredCount + 1,
        trace := st.trace ++ [⟨op.movedTo, restorePath, st.sys.files⟩] }
    else { st with errorCount := st.errorCount + 1 }
  else { st with errorCount := st.errorCount + 1 }

/-- The whole operation-replay loop of undoOrganize. -/
def undoLoop (renameOk : FsPath → FsPath → Bool) (s : Sys)
    (operations : List MoveOp) : UndoState :=
  List.foldl (undoStep renameOk) ⟨s, 0, 0, []⟩ operations

/-- The post-undo sweep of undoOrganize: every built-in category folder
directly under the target that exists and is empty is removed,
best-effort. -/
def sweepCategoryDirs (root : DirPath) (s : Sys) : Sys :=
  (defaultCategories.map Prod.fst).foldl
    (fun acc cat =>
      let categoryDir := root ++ [cat]
      if categoryDir ∈ acc.dirs ∧ dirHasChild acc.files acc.dirs categoryDir = false then
        { acc with dirs := acc.dirs.erase categoryDir }
      else acc)
    s

/-- Model of undoOrganize of src/organizer.js: validate the argument, read
the log (a missing directory has no log file, so readLog reports the
absent marker), pop the most recent batch, replay its operations in
recorded order, persist the shortened log and sweep empty category
folders. -/
def undoOrganize (targetDir : String) (resolvePath : String → DirPath)
    (renameOk : FsPath → FsPath → Bool) (s : Sys) :
    Sys × List RenameEvent × Except String UndoOutcome :=
  if isBlankArg targetDir then
    (s, [], .error ("Target directory must be a non-empty string"))
  else
    let root := resolvePath targetDir
    match readLog s root with
    | none => (s, [], .ok .noLog)
    | some log =>
      if log.length = 0 then (s, [], .ok .noOps)
      else
        let lastBatch := log.getLastD ⟨0, []⟩
        let poppedLog := log.dropLast
        let final := undoLoop renameOk s lastBatch.operations
        let s1 := updateLog final.sys root poppedLog
        let s2 := sweepCategoryDirs root s1
        (s2, final.trace, .ok (.completed final.restoredCount final.errorCount))

/-- Invariant carried through the organize loop for the round-trip
arguments: recorded destinations are on disk and pairwise distinct,
pending candidate paths are on disk and pairwise distinct, and no
recorded destination equals a pending candidate path. -/
def OrgInv (remaining : List FileEntry) (st : OrgState) : Prop :=
  (∀ op ∈ st.operations, op.movedTo ∈ st.sys.files) ∧
  (st.operations.map MoveOp.movedTo).Nodup ∧
  (∀ f ∈ remaining, f.path ∈ st.sys.files) ∧
  (remaining.map FileEntry.path).Nodup ∧
  (∀ op ∈ st.operations, ∀ f ∈ remaining, op.movedTo ≠ f.path)

/-- Invariant carried through the undo loop: pending recorded
destinations are on disk and pairwise distinct, restored files stay on
disk, and no restored path equals a pending recorded destination. -/
def UndoInv (remaining : List MoveOp) (st : UndoState) : Prop :=
  (∀ op ∈ remaining, op.movedTo ∈ st.sys.files) ∧
  (remaining.map MoveOp.movedTo).Nodup ∧
  (∀ e ∈ st.trace, e.dest ∈ st.sys.files) ∧
  (∀ e ∈ st.trace, ∀ op ∈ remaining, e.dest ≠ op.movedTo)

/- ## Lemmas about digit rendering and candidate paths -/

theorem charVal_digitChar : ∀ d < 10, charVal (digitChar d) = d := by decide

theorem digitChar_ne_rparen (d : Nat) : digitChar d ≠ ')' := by
  unfold digitChar
  split_ifs <;> decide

theorem unDigits_append_singleton (l : List Char) (c : Char) :
    unDigits (l ++ [c]) = unDigits l * 10 + charVal c := by
  unfold unDigits
  rw [List.foldl_append]
  rfl

theorem unDigits_natDigitsAux : ∀ fuel n, n ≤ fuel → unDigits (natDigitsAux n fuel) = n := by
  intro fuel
  induction fuel with
  | zero =>
    intro n hn
    have : n = 0 := Nat.le_zero.mp hn
    subst this
    rfl
  | succ fuel ih =>
    intro n hn
    by_cases h0 : n = 0
    · subst h0; simp [natDigitsAux, unDigits]
    · have hdiv : n / 10 ≤ fuel := by
        have : n / 10 < n := Nat.div_lt_self (Nat.pos_of_ne_zero h0) (by omega)
        omega
      have := ih (n / 10) hdiv
      simp only [natDigitsAux, h0, if_false]
      rw [unDigits_append_singleton, this, charVal_digitChar (n % 10) (Nat.mod_lt n (by omega))]
      omega

theorem unDigits_natDigits (n : Nat) : unDigits (natDigits n) = n := by
  unfold natDigits
  by_cases h : n = 0
  · subst h; decide
  · simp only [h, if_false]
    exact unDigits_natDigitsAux n n le_rfl

theorem natDigits_injective : Function.Injective natDigits := by
  intro m n h
  have hm := unDigits_natDigits m
  have hn := unDigits_natDigits n
  rw [h] at hm
  omega

theorem natDigits_ne_nil (n : Nat) : natDigits n ≠ [] := by
  intro h
  have := unDigits_natDigits n
  rw [h] at this
  by_cases h0 : n = 0
  · subst h0; simp [natDigits] at h
  · exact h0 (by simpa [unDigits] using this.symm)

theorem natDigitsAux_mem_digit :
    ∀ fuel n c, c ∈ natDigitsAux n fuel → ∃ d, d < 10 ∧ c = digitChar d := by
  intro fuel
  induction fuel with
  | zero => intro n c hc; simp [natDigitsAux] at hc
  | succ fuel ih =>
    intro n c hc
    by_cases h0 : n = 0
    · simp [natDigitsAux, h0] at hc
    · simp only [natDigitsAux, h0, if_false, List.mem_append, List.mem_singleton] at hc
      rcases hc with hc | hc
      · exact ih _ _ hc
      · exact ⟨n % 10, Nat.mod_lt n (by omega), hc⟩

theorem natDigits_ne_rparen (n : Nat) : ∀ c ∈ natDigits n, c ≠ ')' := by
  intro c hc
  unfold natDigits at hc
  by_cases h0 : n = 0
  · simp [h0] at hc; subst hc; decide
  · simp only [h0, if_false] at hc
    obtain ⟨d, _, rfl⟩ := natDigitsAux_mem_digit n n c hc
    exact digitChar_ne_rparen d

/-- Lists followed by a right parenthesis and arbitrary tails split
uniquely when neither list contains a right parenthesis itself. -/
theorem append_rparen_inj :
    ∀ (u v t t' : Name), (∀ c ∈ u, c ≠ ')') → (∀ c ∈ v, c ≠ ')') →
      u ++ ')' :: t = v ++ ')' :: t' → u = v ∧ t = t' := by
  intro u
  induction u with
  | nil =>
    intro v t t' _ hv h
    cases v with
    | nil => simpa using h
    | cons c v' =>
      simp only [List.nil_append, List.cons_append, List.cons.injEq] at h
      exact absurd h.1.symm (hv c (by simp))
  | cons a u' ih =>
    intro v t t' hu hv h
    cases v with
    | nil =>
      simp only [List.nil_append, List.cons_append, List.cons.injEq] at h
      exact absurd h.1 (hu a (by simp))
    | cons b v' =>
      simp only [List.cons_append, List.cons.injEq] at h
      obtain ⟨rfl, h2⟩ := h
      obtain ⟨rfl, rfl⟩ := ih v' t t' (fun c hc => hu c (by simp [hc]))
        (fun c hc => hv c (by simp [hc])) h2
      exact ⟨rfl, rfl⟩

theorem baseNameNoExt_append_extname (n : Name) : baseNameNoExt n ++ extname n = n := by
  unfold baseNameNoExt extname
  cases hfind : n.reverse.findIdx? (fun c => c = '.') with
  | none => simp
  | some j =>
    have hj : j < n.length := by
      have := List.findIdx?_eq_some_iff_findIdx_eq.mp hfind
      have hlt : j < n.reverse.length := this.1
      simpa using hlt
    by_cases hi : n.length - 1 - j = 0
    · simp [hi]
    · simp only [hi, if_false]
      have hle : n.length - 1 - j ≤ n.length := by omega
      have : (n.drop (n.length - 1 - j)).length = n.length - (n.length - 1 - j) := by
        simp
      rw [this]
      have : n.length - (n.length - (n.length - 1 - j)) = n.length - 1 - j := by omega
      rw [this]
      exact List.take_append_drop _ n

theorem candidatePath_injective (p : FsPath) : Function.Injective (candidatePath p) := by
  intro i j h
  match i, j with
  | 0, 0 => rfl
  | 0, j + 1 =>
    exfalso
    have hbase := congrArg FsPath.base h
    simp only [candidatePath] at hbase
    have hlen := congrArg List.length hbase
    have hsplit := congrArg List.length (baseNameNoExt_append_extname p.base)
    have hne : (natDigits (j + 1)).length ≠ 0 :=
      fun hl => natDigits_ne_nil (j + 1) (List.length_eq_zero.mp hl)
    simp only [List.length_append, List.length_cons] at hlen hsplit
    omega
  | i + 1, 0 =>
    exfalso
    have hbase := congrArg FsPath.base h
    simp only [candidatePath] at hbase
    have hlen := congrArg List.length hbase
    have hsplit := congrArg List.length (baseNameNoExt_append_extname p.base)
    have hne : (natDigits (i + 1)).length ≠ 0 :=
      fun hl => natDigits_ne_nil (i + 1) (List.length_eq_zero.mp hl)
    simp only [List.length_append, List.length_cons] at hlen hsplit
    omega
  | i + 1, j + 1 =>
    have hbase := congrArg FsPath.base h
    simp only [candidatePath] at hbase
    have h2 : baseNameNoExt p.base ++ ('(' :: (natDigits (i + 1) ++ ')' :: extname p.base))
        = baseNameNoExt p.base ++ ('(' :: (natDigits (j + 1) ++ ')' :: extname p.base)) := by
      simpa [List.append_assoc] using hbase
    have h3 := List.append_cancel_left h2
    have h4 : natDigits (i + 1) ++ ')' :: extname p.base
        = natDigits (j + 1) ++ ')' :: extname p.base := by
      simpa using h3
    have h5 := append_rparen_inj _ _ _ _ (natDigits_ne_rparen (i + 1))
      (natDigits_ne_rparen (j + 1)) h4
    have := natDigits_injective h5.1
    omega

/-- Among the first disk.length + 1 candidate paths at least one is absent
from the disk, by counting: the candidates are pairwise distinct. -/
theorem exists_fresh_candidate (disk : List FsPath) (p : FsPath) :
    ∃ k, k ≤ disk.length ∧ candidatePath p k ∉ disk := by
  by_contra hall
  push_neg at hall
  have hsub : Finset.image (candidatePath p) (Finset.range (disk.length + 1)) ⊆ disk.toFinset := by
    intro x hx
    rw [Finset.mem_image] at hx
    obtain ⟨k, hk, rfl⟩ := hx
    rw [Finset.mem_range] at hk
    exact List.mem_toFinset.mpr (hall k (Nat.lt_succ_iff.mp hk))
  have hcard := Finset.card_le_card hsub
  rw [Finset.card_image_of_injective _ (candidatePath_injective p), Finset.card_range] at hcard
  have := List.toFinset_card_le disk
  omega

theorem resolveFrom_spec (disk : List FsPath) (p : FsPath) :
    ∀ fuel k n, k ≤ n → (∀ m, k ≤ m → m < n → candidatePath p m ∈ disk) →
      candidatePath p n ∉ disk → n < k + fuel →
      resolveFrom disk p k fuel = candidatePath p n := by
  intro fuel
  induction fuel with
  | zero => intro k n hkn _ _ hlt; omega
  | succ fuel ih =>
    intro k n hkn hmem hfree hlt
    unfold resolveFrom
    by_cases hk : candidatePath p k ∈ disk
    · have hne : n ≠ k := fun h => hfree (h ▸ hk)
      have hkn' : k + 1 ≤ n := by omega
      rw [if_pos hk]
      exact ih (k + 1) n hkn' (fun m hm1 hm2 => hmem m (by omega) hm2) hfree (by omega)
    · have : n = k := by
        by_contra hne
        exact hk (hmem k le_rfl (by omega))
      rw [if_neg hk, this]

/-- The resolver returns the first candidate, in index order, that is not
on the disk. -/
theorem getUniqueFilePath_eq_candidate (disk : List FsPath) (p : FsPath) (n : Nat)
    (hmem : ∀ m < n, candidatePath p m ∈ disk) (hfree : candidatePath p n ∉ disk) :
    getUniqueFilePath disk p = candidatePath p n := by
  obtain ⟨k, hk, hkfree⟩ := exists_fresh_candidate disk p
  have hn : n ≤ k := by
    by_contra hlt
    exact hkfree (hmem k (by omega))
  exact resolveFrom_spec disk p (disk.length + 1) 0 n (Nat.zero_le n)
    (fun m _ hm => hmem m hm) hfree (by omega)

/-- The resolver result never exists on the disk. -/
theorem getUniqueFilePath_not_mem (disk : List FsPath) (p : FsPath) :
    getUniqueFilePath disk p ∉ disk := by
  have hex : ∃ n, candidatePath p n ∉ disk := by
    obtain ⟨k, _, hk⟩ := exists_fresh_candidate disk p
    exact ⟨k, hk⟩
  classical
  let n := Nat.find hex
  have hfree : candidatePath p n ∉ disk := Nat.find_spec hex
  have hmin : ∀ m < n, candidatePath p m ∈ disk := by
    intro m hm
    by_contra hmem
    exact absurd hm (not_lt.mpr (Nat.find_le hmem))
  rw [getUniqueFilePath_eq_candidate disk p n hmin hfree]
  exact hfree

/-- The resolver always returns one of the candidate paths. -/
theorem getUniqueFilePath_exists_index (disk : List FsPath) (p : FsPath) :
    ∃ n, getUniqueFilePath disk p = candidatePath p n := by
  have hex : ∃ n, candidatePath p n ∉ disk := by
    obtain ⟨k, _, hk⟩ := exists_fresh_candidate disk p
    exact ⟨k, hk⟩
  classical
  let n := Nat.find hex
  have hfree : candidatePath p n ∉ disk := Nat.find_spec hex
  have hmin : ∀ m < n, candidatePath p m ∈ disk := by
    intro m hm
    by_contra hmem
    exact absurd hm (not_lt.mpr (Nat.find_le hmem))
  exact ⟨n, getUniqueFilePath_eq_candidate disk p n hmin hfree⟩

/-- Claim C3: the Unique Path Resolver returns the first path of the
sequence p, p with counter 1 inserted, p with counter 2, ... that does not
exist on disk; a path that does not exist is returned unchanged; and with
a.txt and a(1).txt on disk, resolving a.txt yields a(2).txt. -/
theorem uniquePathResolver_correct :
    (∀ (disk : List FsPath) (p : FsPath), p ∉ disk → getUniqueFilePath disk p = p) ∧
    (∀ (disk : List FsPath) (p : FsPath) (n : Nat),
      (∀ m < n, candidatePath p m ∈ disk) → candidatePath p n ∉ disk →
        getUniqueFilePath disk p = candidatePath p n) ∧
    getUniqueFilePath [⟨[], ("a.txt").toList⟩, ⟨[], ("a(1).txt").toList⟩]
      ⟨[], ("a.txt").toList⟩ = ⟨[], ("a(2).txt").toList⟩ := by
  refine ⟨?_, ?_, ?_⟩
  · intro disk p hp
    exact getUniqueFilePath_eq_candidate disk p 0 (fun m hm => absurd hm (by omega)) hp
  · exact getUniqueFilePath_eq_candidate
  · decide

/-- Witness for claim C3 at a concrete input: a path absent from a
concrete disk resolves to itself. -/
theorem uniquePathResolver_correct_witness :
    getUniqueFilePath [⟨[], ("b.txt").toList⟩] ⟨[], ("a.txt").toList⟩ = ⟨[], ("a.txt").toList⟩ :=
  uniquePathResolver_correct.1 [⟨[], ("b.txt").toList⟩] ⟨[], ("a.txt").toList⟩ (by decide)

/- ## Category resolver lemmas -/

theorem getCategoryLoop_first (extLower : Name) :
    ∀ (pre : List (Name × List Name)) (category : Name) (extensions : List Name)
      (post : List (Name × List Name)),
      (∀ p ∈ pre, extLower ∉ p.2) → extLower ∈ extensions →
      getCategoryLoop extLower (pre ++ (category, extensions) :: post) = category := by
  intro pre
  induction pre with
  | nil =>
    intro category extensions post _ hmem
    simp [getCategoryLoop, hmem]
  | cons p rest ih =>
    intro category extensions post hpre hmem
    obtain ⟨pn, pexts⟩ := p
    have hnot : extLower ∉ pexts := hpre (pn, pexts) (by simp)
    simp only [List.cons_append, getCategoryLoop, if_neg hnot]
    exact ih category extensions post (fun q hq => hpre q (by simp [hq])) hmem

theorem getCategoryLoop_fallback (extLower : Name) :
    ∀ categories, (∀ p ∈ categories, extLower ∉ p.2) →
      getCategoryLoop extLower categories = ("Others").toList := by
  intro categories
  induction categories with
  | nil => intro _; rfl
  | cons p rest ih =>
    intro h
    obtain ⟨pn, pexts⟩ := p
    have hnot : extLower ∉ pexts := h (pn, pexts) (by simp)
    simp only [getCategoryLoop, if_neg hnot]
    exact ih (fun q hq => h q (by simp [hq]))

/-- Claim C4: getCategory lower-cases the extension, scans the ordered
category map returning the first category whose extension set contains the
lowered extension, falls back to Others when nothing matches or the
extension is empty or absent, and therefore resolves .JPG exactly as it
resolves .jpg. -/
theorem getCategory_contract :
    (∀ categories, getCategory [] categories = ("Others").toList) ∧
    (∀ (extension : Name) (pre : List (Name × List Name)) (category : Name)
        (extensions : List Name) (post : List (Name × List Name)),
      extension ≠ [] → (∀ p ∈ pre, toLowerName extension ∉ p.2) →
      toLowerName extension ∈ extensions →
      getCategory extension (pre ++ (category, extensions) :: post) = category) ∧
    (∀ (extension : Name) (categories : List (Name × List Name)),
      extension ≠ [] → (∀ p ∈ categories, toLowerName extension ∉ p.2) →
      getCategory extension categories = ("Others").toList) ∧
    (∀ categories,
      getCategory (".JPG").toList categories = getCategory (".jpg").toList categories) := by
  refine ⟨?_, ?_, ?_, ?_⟩
  · intro categories; simp [getCategory]
  · intro extension pre category extensions post hne hpre hmem
    rw [getCategory, if_neg hne]
    exact getCategoryLoop_first (toLowerName extension) pre category extensions post hpre hmem
  · intro extension categories hne h
    rw [getCategory, if_neg hne]
    exact getCategoryLoop_fallback (toLowerName extension) categories h
  · intro categories
    rw [getCategory, getCategory, if_neg (by decide), if_neg (by decide)]
    exact congrArg (fun e => getCategoryLoop e categories) (by decide)

/-- Witness for claim C4 at a concrete input: .JPG matches a category
whose extension set holds the lower-case .jpg. -/
theorem getCategory_contract_witness :
    getCategory (".JPG").toList [(("Images").toList, strs [".jpg"])] = ("Images").toList :=
  getCategory_contract.2.1 (".JPG").toList [] (("Images").toList) (strs [".jpg"]) []
    (by decide) (by decide) (by decide)

/- ## Operation log lemmas -/

theorem lookupLog_setLog (logs : List (DirPath × LogFileContent)) (root : DirPath)
    (c : LogFileContent) : lookupLog (setLog logs root c) root = some c := by
  simp [setLog, lookupLog]

theorem lookupLog_removeLog (logs : List (DirPath × LogFileContent)) (root : DirPath) :
    lookupLog (removeLog logs root) root = none := by
  induction logs with
  | nil => rfl
  | cons e rest ih =>
    by_cases h : e.1 = root
    · simpa [removeLog, List.filter, h] using ih
    · simpa [removeLog, List.filter, lookupLog, h] using ih

/-- Claim C9: updateLog writes back exactly the non-empty log it is given
and deletes the log file entirely when the log is empty, so the persisted
state never holds a zero-length batch array as a file. -/
theorem updateLog_invariant :
    (∀ (s : Sys) (targetDir : DirPath) (log : List Batch), log ≠ [] →
      lookupLog (updateLog s targetDir log).logs targetDir = some (.valid log)) ∧
    (∀ (s : Sys) (targetDir : DirPath),
      lookupLog (updateLog s targetDir []).logs targetDir = none) ∧
    (∀ (s : Sys) (targetDir : DirPath) (log b : List Batch),
      lookupLog (updateLog s targetDir log).logs targetDir = some (.valid b) →
        b = log ∧ b ≠ []) := by
  refine ⟨?_, ?_, ?_⟩
  · intro s targetDir log hne
    have hlen : log.length > 0 := List.length_pos.mpr hne
    rw [updateLog, if_pos hlen]
    exact lookupLog_setLog s.logs targetDir (.valid log)
  · intro s targetDir
    rw [updateLog, if_neg (by simp)]
    exact lookupLog_removeLog s.logs targetDir
  · intro s targetDir log b hlook
    by_cases hne : log = []
    · subst hne
      rw [updateLog, if_neg (by simp)] at hlook
      rw [lookupLog_removeLog s.logs targetDir] at hlook
      exact absurd hlook (by simp)
    · have hlen : log.length > 0 := List.length_pos.mpr hne
      rw [updateLog, if_pos hlen, lookupLog_setLog s.logs targetDir (.valid log)] at hlook
      have hb : b = log := (LogFileContent.valid.inj (Option.some.inj hlook)).symm
      exact ⟨hb, hb ▸ hne⟩

/-- Witness for claim C9 at a concrete input: a one-batch log is written
back verbatim. -/
theorem updateLog_invariant_witness :
    lookupLog (updateLog ⟨[], [], []⟩ [] [⟨0, []⟩]).logs [] = some (.valid [⟨0, []⟩]) :=
  updateLog_invariant.1 ⟨[], [], []⟩ [] [⟨0, []⟩] (by decide)

/-- Claim C10: readLog returns the absent marker both when the log file is
missing and when its content fails to parse as JSON, so an undo run over a
corrupt log file reports nothing to undo, leaves the corrupt file in
place, and raises no error. -/
theorem readLog_corrupt_contract :
    (∀ (s : Sys) (targetDir : DirPath), lookupLog s.logs targetDir = none →
      readLog s targetDir = none) ∧
    (∀ (s : Sys) (targetDir : DirPath), lookupLog s.logs targetDir = some .corrupt →
      readLog s targetDir = none) ∧
    (∀ (targetDir : String) (resolvePath : String → DirPath)
        (renameOk : FsPath → FsPath → Bool) (s : Sys),
      isBlankArg targetDir = false →
      lookupLog s.logs (resolvePath targetDir) = some .corrupt →
      undoOrganize targetDir resolvePath renameOk s = (s, [], .ok .noLog)) := by
  refine ⟨?_, ?_, ?_⟩
  · intro s targetDir h; rw [readLog, h]
  · intro s targetDir h; rw [readLog, h]
  · intro targetDir resolvePath renameOk s hblank hcorrupt
    have h : readLog s (resolvePath targetDir) = none := by rw [readLog, hcorrupt]
    rw [undoOrganize, if_neg (by simp [hblank])]
    simp [h]

/-- Witness for claim C10 at a concrete input: undo over a directory whose
log file content is corrupt returns the state unchanged with the
nothing-to-undo outcome. -/
theorem readLog_corrupt_contract_witness :
    undoOrganize ("t") (fun _ => []) (fun _ _ => true) ⟨[], [[]], [([], .corrupt)]⟩
      = (⟨[], [[]], [([], .corrupt)]⟩, [], .ok .noLog) :=
  readLog_corrupt_contract.2.2 ("t") (fun _ => []) (fun _ _ => true)
    ⟨[], [[]], [([], .corrupt)]⟩ (by decide) (by decide)

/- ## Discovery lemmas -/

/-- Structural soundness of recursive discovery: every collected entry has
a non-log name, sits below the scanned directory along a path free of
category-named segments, and, when collected directly at the base
directory, does not itself bear a category name. -/
theorem collectFilesRecursively_mem
    (entries : List FTree) (dirPath basePath : DirPath)
    (categoryFolders ignorePatterns : List Name) (recursive : Bool) :
    ∀ e ∈ collectFilesRecursively entries dirPath basePath categoryFolders ignorePatterns
        recursive,
      e.name ≠ LOG_FILE_NAME ∧
      ∃ rel : DirPath, e.dir = dirPath ++ rel ∧ (∀ seg ∈ rel, seg ∉ categoryFolders) ∧
        (rel = [] → dirPath = basePath → e.name ∉ categoryFolders) := by
  induction entries, dirPath, basePath, categoryFolders, ignorePatterns, recursive
    using collectFilesRecursively.induct with
  | case1 dirPath basePath cats pats recursive =>
    intro e he
    exact absurd he (by simp [collectFilesRecursively])
  | case2 dirPath basePath cats pats recursive entry rest eName hlog ih1 =>
    intro e he
    have hlog' : entry.name = LOG_FILE_NAME := hlog
    exact ih1 e (by rw [collectFilesRecursively.eq_def] at he; simpa [hlog'] using he)
  | case3 dirPath basePath cats pats recursive entry rest eName ePath hlog hig ih1 =>
    intro e he
    have hlog' : ¬ entry.name = LOG_FILE_NAME := hlog
    have hig' : shouldIgnore (dirPath ++ [entry.name]) pats = true := hig
    exact ih1 e (by rw [collectFilesRecursively.eq_def] at he; simpa [hlog', hig'] using he)
  | case4 dirPath basePath cats pats recursive entry rest eName ePath hlog hig hcat ih1 =>
    intro e he
    have hlog' : ¬ entry.name = LOG_FILE_NAME := hlog
    have hig' : ¬ shouldIgnore (dirPath ++ [entry.name]) pats = true := hig
    have hcat' : dirPath = basePath ∧ entry.name ∈ cats := hcat
    exact ih1 e
      (by rw [collectFilesRecursively.eq_def] at he; simpa [hlog', hig', hcat'] using he)
  | case5 dirPath basePath cats pats recursive rest n my mm eName ePath hlog hig hcat ih1 =>
    intro e he
    have hlog' : ¬ n = LOG_FILE_NAME := hlog
    have hig' : ¬ shouldIgnore (dirPath ++ [n]) pats = true := hig
    have hcat' : ¬ (dirPath = basePath ∧ n ∈ cats) := hcat
    rw [show collectFilesRecursively (.file n my mm :: rest) dirPath basePath cats pats
            recursive
          = ⟨n, dirPath, my, mm⟩ ::
              collectFilesRecursively rest dirPath basePath cats pats recursive from by
        rw [collectFilesRecursively.eq_def]
        simp [FTree.name, hlog', hig', hcat']] at he
    rcases List.mem_cons.mp he with rfl | hmem
    · refine ⟨hlog', [], by simp, by simp, ?_⟩
      intro _ hbase hc
      exact hcat' ⟨hbase, hc⟩
    · exact ih1 e hmem
  | case6 dirPath basePath cats pats rest n children eName ePath hlog hig hcat hmem ih1 =>
    intro e he
    have hlog' : ¬ n = LOG_FILE_NAME := hlog
    have hig' : ¬ shouldIgnore (dirPath ++ [n]) pats = true := hig
    have hcat' : ¬ (dirPath = basePath ∧ n ∈ cats) := hcat
    have hmem' : n ∈ cats := hmem
    exact ih1 e
      (by rw [collectFilesRecursively.eq_def] at he
          simpa [FTree.name, hlog', hig', hcat', hmem'] using he)
  | case7 dirPath basePath cats pats rest n children eName ePath hlog hig hcat hnotmem ih2 ih1 =>
    intro e he
    have hlog' : ¬ n = LOG_FILE_NAME := hlog
    have hig' : ¬ shouldIgnore (dirPath ++ [n]) pats = true := hig
    have hcat' : ¬ (dirPath = basePath ∧ n ∈ cats) := hcat
    have hnotmem' : n ∉ cats := hnotmem
    have hchild : ∀ e ∈ collectFilesRecursively children (dirPath ++ [n]) basePath cats pats
        true,
        e.name ≠ LOG_FILE_NAME ∧
        ∃ rel : DirPath, e.dir = (dirPath ++ [n]) ++ rel ∧ (∀ seg ∈ rel, seg ∉ cats) ∧
          (rel = [] → dirPath ++ [n] = basePath → e.name ∉ cats) := ih2
    rw [show collectFilesRecursively (.dir n children :: rest) dirPath basePath cats pats true
          = collectFilesRecursively children (dirPath ++ [n]) basePath cats pats true ++
            collectFilesRecursively rest dirPath basePath cats pats true from by
        rw [collectFilesRecursively.eq_def]
        simp [FTree.name, hlog', hig', hcat', hnotmem']] at he
    rcases List.mem_append.mp he with hmem | hmem
    · obtain ⟨hname, rel', hdir, hsegs, _⟩ := hchild e hmem
      refine ⟨hname, n :: rel', by simpa using hdir, ?_, by simp⟩
      intro seg hseg
      rcases List.mem_cons.mp hseg with rfl | hseg'
      · exact hnotmem'
      · exact hsegs seg hseg'
    · exact ih1 e hmem
  | case8 dirPath basePath cats pats recursive rest n children hrec eName ePath hlog hig hcat
      ih1 =>
    intro e he
    have hlog' : ¬ n = LOG_FILE_NAME := hlog
    have hig' : ¬ shouldIgnore (dirPath ++ [n]) pats = true := hig
    have hcat' : ¬ (dirPath = basePath ∧ n ∈ cats) := hcat
    exact ih1 e
      (by rw [collectFilesRecursively.eq_def] at he
          simpa [FTree.name, hlog', hig', hcat', hrec] using he)

/-- Structural soundness of the non-recursive discovery of
organizeDirectory: collected entries have non-log, non-category names and
reside directly in the target directory. -/
theorem discoverTopLevel_mem
    (entries : List FTree) (basePath : DirPath)
    (categoryFolders ignorePatterns : List Name) :
    ∀ e ∈ discoverTopLevel entries basePath categoryFolders ignorePatterns,
      e.name ≠ LOG_FILE_NAME ∧ e.dir = basePath ∧ e.name ∉ categoryFolders := by
  induction entries with
  | nil => intro e he; exact absurd he (by simp [discoverTopLevel])
  | cons entry rest ih =>
    intro e he
    by_cases hlog : entry.name = LOG_FILE_NAME
    · exact ih e (by simpa [discoverTopLevel, hlog] using he)
    · by_cases hig : shouldIgnore (basePath ++ [entry.name]) ignorePatterns = true
      · exact ih e (by simpa [discoverTopLevel, hlog, hig] using he)
      · by_cases hcat : entry.name ∈ categoryFolders
        · exact ih e (by simpa [discoverTopLevel, hlog, hig, hcat] using he)
        · cases entry with
          | file n my mm =>
            rw [show discoverTopLevel (.file n my mm :: rest) basePath categoryFolders
                    ignorePatterns
                  = ⟨n, basePath, my, mm⟩ ::
                      discoverTopLevel rest basePath categoryFolders ignorePatterns from by
                simp only [FTree.name] at hlog hig hcat
                simp [discoverTopLevel, hlog, hig, hcat, FTree.name]] at he
            rcases List.mem_cons.mp he with rfl | hmem
            · exact ⟨by simpa [FTree.name] using hlog, rfl, by simpa [FTree.name] using hcat⟩
            · exact ih e hmem
          | dir n children =>
            exact ih e (by simpa [discoverTopLevel, hlog, hig, hcat, FTree.name] using he)

/-- Counterexample to claim C7: with the default category folders, a
recursive scan of a subdirectory sub containing a plain file named
Documents collects that file as a candidate, although its name equals a
configured category folder name; the claimed skip at every directory
level only applies to directories, not files. -/
theorem discoverySkip_counterexample :
    collectFilesRecursively [.dir ("sub").toList [.file ("Documents").toList 0 0]]
        [] [] (defaultCategories.map Prod.fst) [] true
      = [⟨("Documents").toList, [("sub").toList], 0, 0⟩] ∧
    ("Documents").toList ∈ defaultCategories.map Prod.fst := by
  constructor
  · simp [collectFilesRecursively, LOG_FILE_NAME, shouldIgnore, FTree.name,
      defaultCategories, strs]
  · decide

/-- Claim C7 amended: during discovery, the operation-log filename is
always skipped; at the base directory any entry whose name equals a
configured category folder name is skipped; in recursive runs no
collected file lies below a category-named directory at any level; but a
plain file bearing a category name inside a subdirectory is still
collected, so the skip at deeper levels applies to directories only. -/
theorem discoverySkip_amended :
    (∀ (entries : List FTree) (dirPath basePath : DirPath)
        (categoryFolders ignorePatterns : List Name) (recursive : Bool),
      ∀ e ∈ collectFilesRecursively entries dirPath basePath categoryFolders ignorePatterns
          recursive,
        e.name ≠ LOG_FILE_NAME ∧
        ∃ rel : DirPath, e.dir = dirPath ++ rel ∧ (∀ seg ∈ rel, seg ∉ categoryFolders) ∧
          (rel = [] → dirPath = basePath → e.name ∉ categoryFolders)) ∧
    (∀ (entries : List FTree) (basePath : DirPath)
        (categoryFolders ignorePatterns : List Name),
      ∀ e ∈ discoverTopLevel entries basePath categoryFolders ignorePatterns,
        e.name ≠ LOG_FILE_NAME ∧ e.dir = basePath ∧ e.name ∉ categoryFolders) :=
  ⟨collectFilesRecursively_mem, discoverTopLevel_mem⟩

/-- Witness for the amended claim C7 at a concrete input: a file collected
at the top level keeps a non-log, non-category name in the base
directory. -/
theorem discoverySkip_amended_witness :
    (⟨("a.txt").toList, [], 0, 0⟩ : FileEntry).name ≠ LOG_FILE_NAME ∧
    (⟨("a.txt").toList, [], 0, 0⟩ : FileEntry).dir = [] ∧
    (⟨("a.txt").toList, [], 0, 0⟩ : FileEntry).name ∉ ([] : List Name) :=
  discoverySkip_amended.2 [.file ("a.txt").toList 0 0] [] [] []
    ⟨("a.txt").toList, [], 0, 0⟩ (by decide)

/- ## Move engine lemmas -/

/-- Case analysis of one organize-loop iteration: it leaves the state
unchanged (dry run), counts an interactive skip, only creates the
destination directory (failed rename), or performs the move and records
it. -/
theorem orgStep_cases (root : DirPath) (categories : List (Name × List Name))
    (opts : Options) (st : OrgState) (file : FileEntry) :
    (opts.dryRun = true ∧ orgStep root categories opts st file = st) ∨
    orgStep root categories opts st file = { st with skippedCount := st.skippedCount + 1 } ∨
    orgStep root categories opts st file
      = { st with sys := { st.sys with
            dirs := mkdirp st.sys.dirs (orgTargetSubDir root categories opts file) } } ∨
    (opts.renameOk file.path (orgDest root categories opts st.sys.files file) = true ∧
      file.path ∈ st.sys.files ∧
      orgStep root categories opts st file
        = { st with
            sys := { st.sys with
              dirs := mkdirp st.sys.dirs (orgTargetSubDir root categories opts file),
              files := st.sys.files.erase file.path
                ++ [orgDest root categories opts st.sys.files file] },
            operations := st.operations
              ++ [⟨file.path, orgDest root categories opts st.sys.files file⟩],
            processedCount := st.processedCount + 1,
            trace := st.trace
              ++ [⟨file.path, orgDest root categories opts st.sys.files file,
                   st.sys.files⟩] }) := by
  simp only [orgStep]
  split_ifs with h1 h2 h3
  · exact Or.inl ⟨by simpa using h1, rfl⟩
  · exact Or.inr (Or.inl rfl)
  · exact Or.inr (Or.inr (Or.inr ⟨by simpa using h3.1, h3.2, rfl⟩))
  · exact Or.inr (Or.inr (Or.inl rfl))

/-- A dry-run iteration changes nothing. -/
theorem orgStep_dry (root : DirPath) (categories : List (Name × List Name))
    (opts : Options) (st : OrgState) (file : FileEntry) (hdry : opts.dryRun = true) :
    orgStep root categories opts st file = st := by
  simp only [orgStep]
  rw [if_pos (by simpa using hdry)]

/-- A dry run leaves the whole loop state unchanged. -/
theorem orgLoop_dry (root : DirPath) (categories : List (Name × List Name))
    (opts : Options) (hdry : opts.dryRun = true) :
    ∀ (files : List FileEntry) (st : OrgState),
      List.foldl (orgStep root categories opts) st files = st := by
  intro files
  induction files with
  | nil => intro st; rfl
  | cons f rest ih =>
    intro st
    rw [List.foldl_cons, orgStep_dry root categories opts st f hdry]
    exact ih st

/-- Every rename the organize loop performs targets a path absent from
the disk at that moment. -/
theorem orgLoop_trace_fresh (root : DirPath) (categories : List (Name × List Name))
    (opts : Options) :
    ∀ (files : List FileEntry) (st : OrgState),
      (∀ e ∈ st.trace, e.dest ∉ e.diskBefore) →
      ∀ e ∈ (List.foldl (orgStep root categories opts) st files).trace,
        e.dest ∉ e.diskBefore := by
  intro files
  induction files with
  | nil => intro st h; simpa using h
  | cons f rest ih =>
    intro st h
    rw [List.foldl_cons]
    apply ih
    rcases orgStep_cases root categories opts st f with ⟨_, heq⟩ | heq | heq | ⟨_, _, heq⟩ <;>
      rw [heq]
    · exact h
    · exact h
    · exact h
    · intro e he
      rcases List.mem_append.mp he with he | he
      · exact h e he
      · rw [List.mem_singleton.mp he]
        exact getUniqueFilePath_not_mem st.sys.files _

/-- The organize loop keeps the file list free of duplicates. -/
theorem orgLoop_nodup (root : DirPath) (categories : List (Name × List Name))
    (opts : Options) :
    ∀ (files : List FileEntry) (st : OrgState),
      st.sys.files.Nodup →
      (List.foldl (orgStep root categories opts) st files).sys.files.Nodup := by
  intro files
  induction files with
  | nil => intro st h; simpa using h
  | cons f rest ih =>
    intro st h
    rw [List.foldl_cons]
    apply ih
    rcases orgStep_cases root categories opts st f with ⟨_, heq⟩ | heq | heq | ⟨_, _, heq⟩ <;>
      rw [heq]
    · exact h
    · exact h
    · exact h
    · have hfresh : orgDest root categories opts st.sys.files f ∉ st.sys.files :=
        getUniqueFilePath_not_mem st.sys.files _
      refine List.Nodup.append (h.erase f.path) (by simp) ?_
      intro a ha hb
      rw [List.mem_singleton.mp hb] at ha
      exact hfresh (List.erase_subset _ _ ha)

/-- The organize loop never touches the log files. -/
theorem orgLoop_logs (root : DirPath) (categories : List (Name × List Name))
    (opts : Options) :
    ∀ (files : List FileEntry) (st : OrgState),
      (List.foldl (orgStep root categories opts) st files).sys.logs = st.sys.logs := by
  intro files
  induction files with
  | nil => intro st; rfl
  | cons f rest ih =>
    intro st
    rw [List.foldl_cons]
    rw [ih]
    rcases orgStep_cases root categories opts st f with ⟨_, heq⟩ | heq | heq | ⟨_, _, heq⟩ <;>
      rw [heq]

/-- Recorded operations are exactly the performed renames, in order. -/
theorem orgLoop_ops_eq_trace (root : DirPath) (categories : List (Name × List Name))
    (opts : Options) :
    ∀ (files : List FileEntry) (st : OrgState),
      st.operations = st.trace.map (fun e => (⟨e.src, e.dest⟩ : MoveOp)) →
      (List.foldl (orgStep root categories opts) st files).operations
        = (List.foldl (orgStep root categories opts) st files).trace.map
            (fun e => (⟨e.src, e.dest⟩ : MoveOp)) := by
  intro files
  induction files with
  | nil => intro st h; simpa using h
  | cons f rest ih =>
    intro st h
    rw [List.foldl_cons]
    apply ih
    rcases orgStep_cases root categories opts st f with ⟨_, heq⟩ | heq | heq | ⟨_, _, heq⟩ <;>
      rw [heq]
    · exact h
    · exact h
    · exact h
    · simp [h]

/-- Only moves whose rename succeeded are ever recorded. -/
theorem orgLoop_renameOk (root : DirPath) (categories : List (Name × List Name))
    (opts : Options) :
    ∀ (files : List FileEntry) (st : OrgState),
      (∀ op ∈ st.operations, opts.renameOk op.original op.movedTo = true) →
      ∀ op ∈ (List.foldl (orgStep root categories opts) st files).operations,
        opts.renameOk op.original op.movedTo = true := by
  intro files
  induction files with
  | nil => intro st h; simpa using h
  | cons f rest ih =>
    intro st h
    rw [List.foldl_cons]
    apply ih
    rcases orgStep_cases root categories opts st f with ⟨_, heq⟩ | heq | heq | ⟨hok, _, heq⟩ <;>
      rw [heq]
    · exact h
    · exact h
    · exact h
    · intro op hop
      rcases List.mem_append.mp hop with hop | hop
      · exact h op hop
      · rw [List.mem_singleton.mp hop]
        exact hok

/-- The processed counter counts exactly the recorded operations. -/
theorem orgLoop_processed (root : DirPath) (categories : List (Name × List Name))
    (opts : Options) :
    ∀ (files : List FileEntry) (st : OrgState),
      st.processedCount = st.operations.length →
      (List.foldl (orgStep root categories opts) st files).processedCount
        = (List.foldl (orgStep root categories opts) st files).operations.length := by
  intro files
  induction files with
  | nil => intro st h; simpa using h
  | cons f rest ih =>
    intro st h
    rw [List.foldl_cons]
    apply ih
    rcases orgStep_cases root categories opts st f with ⟨_, heq⟩ | heq | heq | ⟨_, _, heq⟩ <;>
      rw [heq]
    · exact h
    · exact h
    · exact h
    · simp [h]

/- ## Undo engine lemmas -/

/-- Case analysis of one undo-loop iteration: either some step fails and
only the error counter moves, or the recorded destination still exists,
the rename back succeeds, and the state records the restoration. -/
theorem undoStep_cases (renameOk : FsPath → FsPath → Bool) (st : UndoState) (op : MoveOp) :
    undoStep renameOk st op = { st with errorCount := st.errorCount + 1 } ∨
    (op.movedTo ∈ st.sys.files ∧
      renameOk op.movedTo (getUniqueFilePath st.sys.files op.original) = true ∧
      undoStep renameOk st op
        = { st with
            sys := { st.sys with files := st.sys.files.erase op.movedTo
              ++ [getUniqueFilePath st.sys.files op.original] },
            restoredCount := st.restoredCount + 1,
            trace := st.trace ++ [⟨op.movedTo, getUniqueFilePath st.sys.files op.original,
              st.sys.files⟩] }) := by
  simp only [undoStep]
  split_ifs with h1 h2
  · exact Or.inr ⟨h1, by simpa using h2, rfl⟩
  · exact Or.inl rfl
  · exact Or.inl rfl

/-- Every rename the undo loop performs targets a path absent from the
disk at that moment. -/
theorem undoLoop_trace_fresh (renameOk : FsPath → FsPath → Bool) :
    ∀ (operations : List MoveOp) (st : UndoState),
      (∀ e ∈ st.trace, e.dest ∉ e.diskBefore) →
      ∀ e ∈ (List.foldl (undoStep renameOk) st operations).trace, e.dest ∉ e.diskBefore := by
  intro operations
  induction operations with
  | nil => intro st h; simpa using h
  | cons op rest ih =>
    intro st h
    rw [List.foldl_cons]
    apply ih
    rcases undoStep_cases renameOk st op with heq | ⟨_, _, heq⟩ <;> rw [heq]
    · exact h
    · intro e he
      rcases List.mem_append.mp he with he | he
      · exact h e he
      · rw [List.mem_singleton.mp he]
        exact getUniqueFilePath_not_mem st.sys.files op.original

/-- The undo loop keeps the file list free of duplicates. -/
theorem undoLoop_nodup (renameOk : FsPath → FsPath → Bool) :
    ∀ (operations : List MoveOp) (st : UndoState),
      st.sys.files.Nodup →
      (List.foldl (undoStep renameOk) st operations).sys.files.Nodup := by
  intro operations
  induction operations with
  | nil => intro st h; simpa using h
  | cons op rest ih =>
    intro st h
    rw [List.foldl_cons]
    apply ih
    rcases undoStep_cases renameOk st op with heq | ⟨_, _, heq⟩ <;> rw [heq]
    · exact h
    · have hfresh : getUniqueFilePath st.sys.files op.original ∉ st.sys.files :=
        getUniqueFilePath_not_mem st.sys.files op.original
      refine List.Nodup.append (h.erase op.movedTo) (by simp) ?_
      intro a ha hb
      rw [List.mem_singleton.mp hb] at ha
      exact hfresh (List.erase_subset _ _ ha)

/-- The undo loop never touches the log files. -/
theorem undoLoop_logs (renameOk : FsPath → FsPath → Bool) :
    ∀ (operations : List MoveOp) (st : UndoState),
      (List.foldl (undoStep renameOk) st operations).sys.logs = st.sys.logs := by
  intro operations
  induction operations with
  | nil => intro st; rfl
  | cons op rest ih =>
    intro st
    rw [List.foldl_cons, ih]
    rcases undoStep_cases renameOk st op with heq | ⟨_, _, heq⟩ <;> rw [heq]

/-- The sweep of empty category folders touches neither files nor logs. -/
theorem sweepCategoryDirs_files_logs (root : DirPath) (s : Sys) :
    (sweepCategoryDirs root s).files = s.files ∧ (sweepCategoryDirs root s).logs = s.logs := by
  unfold sweepCategoryDirs
  generalize defaultCategories.map Prod.fst = cats
  induction cats generalizing s with
  | nil => exact ⟨rfl, rfl⟩
  | cons c rest ih =>
    rw [List.foldl_cons]
    dsimp only
    split_ifs with h
    · exact ih _
    · exact ih _

/- ## State-shape lemmas for the run functions -/

theorem saveLog_files (s : Sys) (targetDir : DirPath) (operations : List MoveOp)
    (timestamp : Nat) : (saveLog s targetDir operations timestamp).files = s.files := rfl

theorem updateLog_files (s : Sys) (targetDir : DirPath) (log : List Batch) :
    (updateLog s targetDir log).files = s.files := by
  unfold updateLog
  split_ifs <;> rfl

theorem orgSaveCleanup_files (root : DirPath) (categories : List (Name × List Name))
    (opts : Options) (timestamp : Nat) (final : OrgState) :
    (orgSaveCleanup root categories opts timestamp final).files = final.sys.files := by
  unfold orgSaveCleanup
  dsimp only
  split_ifs <;> rfl

theorem orgSaveCleanup_logs (root : DirPath) (categories : List (Name × List Name))
    (opts : Options) (timestamp : Nat) (final : OrgState) :
    (orgSaveCleanup root categories opts timestamp final).logs
      = if final.operations.length > 0 ∧ ¬ opts.dryRun
        then (saveLog final.sys root final.operations timestamp).logs
        else final.sys.logs := by
  unfold orgSaveCleanup
  dsimp only
  split_ifs <;> rfl

/-- The done path of organizeDirectory, with all precondition checks
passed and a non-empty candidate list. -/
theorem organizeDirectory_done (targetDir : String) (resolvePath : String → DirPath)
    (filesToProcess : List FileEntry) (categories : List (Name × List Name))
    (opts : Options) (timestamp : Nat) (s : Sys)
    (hblank : isBlankArg targetDir = false)
    (hdir : resolvePath targetDir ∈ s.dirs)
    (hne : filesToProcess ≠ []) :
    organizeDirectory targetDir resolvePath filesToProcess categories opts timestamp s
      = (orgSaveCleanup (resolvePath targetDir) categories opts timestamp
           (orgLoop (resolvePath targetDir) categories opts s filesToProcess),
         (orgLoop (resolvePath targetDir) categories opts s filesToProcess).trace,
         .ok (.done (orgLoop (resolvePath targetDir) categories opts s filesToProcess).operations
           (orgLoop (resolvePath targetDir) categories opts s filesToProcess).processedCount
           (orgLoop (resolvePath targetDir) categories opts s filesToProcess).skippedCount)) := by
  rw [organizeDirectory, if_neg (by simp [hblank]),
    if_neg (fun h => h (Or.inl hdir)), if_neg (fun h => h hdir),
    if_neg (by simpa [List.length_eq_zero] using hne)]

/-- Counterexample to claim C5: an undo invocation naming a target that
does not exist, or one that names a file rather than a directory,
performs no validation beyond the blank check: it finds no log file and
returns normally with the nothing-to-undo outcome instead of raising the
error the claim demands (organize does raise in both situations). -/
theorem undoPrecondition_counterexample :
    undoOrganize ("missing") (fun _ => [("missing").toList]) (fun _ _ => true) ⟨[], [[]], []⟩
        = (⟨[], [[]], []⟩, [], .ok .noLog) ∧
    [("missing").toList] ∉ (⟨[], [[]], []⟩ : Sys).dirs ∧
    undoOrganize ("f") (fun _ => [("f").toList]) (fun _ _ => true)
        ⟨[⟨[], ("f").toList⟩], [[]], []⟩
      = (⟨[⟨[], ("f").toList⟩], [[]], []⟩, [], .ok .noLog) ∧
    [("f").toList] ∉ (⟨[⟨[], ("f").toList⟩], [[]], []⟩ : Sys).dirs :=
  ⟨rfl, by decide, rfl, by decide⟩

/-- Claim C5 amended: organize raises immediately and mutates nothing for
a blank argument, a nonexistent target and a non-directory target; undo
raises immediately and mutates nothing only for a blank argument, while
for a nonexistent or non-directory target it finds no log file, reports
nothing to undo and returns without raising and without mutating
anything. -/
theorem preconditionErrors_amended :
    (∀ targetDir resolvePath filesToProcess categories opts timestamp (s : Sys),
      isBlankArg targetDir = true →
      organizeDirectory targetDir resolvePath filesToProcess categories opts timestamp s
        = (s, [], .error ("Target directory must be a non-empty string"))) ∧
    (∀ targetDir resolvePath filesToProcess categories opts timestamp (s : Sys),
      isBlankArg targetDir = false →
      ¬ (resolvePath targetDir ∈ s.dirs ∨
          ∃ f ∈ s.files, f.dir ++ [f.base] = resolvePath targetDir) →
      organizeDirectory targetDir resolvePath filesToProcess categories opts timestamp s
        = (s, [], .error ("Directory does not exist"))) ∧
    (∀ targetDir resolvePath filesToProcess categories opts timestamp (s : Sys),
      isBlankArg targetDir = false →
      (∃ f ∈ s.files, f.dir ++ [f.base] = resolvePath targetDir) →
      resolvePath targetDir ∉ s.dirs →
      organizeDirectory targetDir resolvePath filesToProcess categories opts timestamp s
        = (s, [], .error ("Path is not a directory"))) ∧
    (∀ targetDir resolvePath renameOk (s : Sys),
      isBlankArg targetDir = true →
      undoOrganize targetDir resolvePath renameOk s
        = (s, [], .error ("Target directory must be a non-empty string"))) ∧
    (∀ targetDir resolvePath renameOk (s : Sys),
      isBlankArg targetDir = false →
      lookupLog s.logs (resolvePath targetDir) = none →
      undoOrganize targetDir resolvePath renameOk s = (s, [], .ok .noLog)) := by
  refine ⟨?_, ?_, ?_, ?_, ?_⟩
  · intro targetDir resolvePath filesToProcess categories opts timestamp s hb
    rw [organizeDirectory, if_pos (by simp [hb])]
  · intro targetDir resolvePath filesToProcess categories opts timestamp s hb hnx
    rw [organizeDirectory, if_neg (by simp [hb]), if_pos hnx]
  · intro targetDir resolvePath filesToProcess categories opts timestamp s hb hex hnd
    rw [organizeDirectory, if_neg (by simp [hb]), if_neg (fun h => h (Or.inr hex)),
      if_pos hnd]
  · intro targetDir resolvePath renameOk s hb
    rw [undoOrganize, if_pos (by simp [hb])]
  · intro targetDir resolvePath renameOk s hb hnl
    have h : readLog s (resolvePath targetDir) = none := by rw [readLog, hnl]
    rw [undoOrganize, if_neg (by simp [hb])]
    simp [h]

/-- Witness for the amended claim C5 at a concrete input: organize on a
blank target raises the invalid-argument error and returns the state
unchanged. -/
theorem preconditionErrors_amended_witness :
    organizeDirectory ("") (fun _ => []) [] []
        ⟨false, false, false, false, fun _ _ => true, fun _ _ => true⟩ 0 ⟨[], [], []⟩
      = (⟨[], [], []⟩, [], .error ("Target directory must be a non-empty string")) :=
  preconditionErrors_amended.1 ("") (fun _ => []) [] []
    ⟨false, false, false, false, fun _ _ => true, fun _ _ => true⟩ 0 ⟨[], [], []⟩ (by decide)

/-- Counterexample to claim C6: a run over one candidate file whose
rename fails completes without error, but the failed move is aggregated
into neither counter: processedCount and skippedCount are both zero while
the run had one file, so the failure is visible only as the file not
being counted, not in the counters the claim names. -/
theorem moveFailureCounters_counterexample :
    organizeDirectory ("t") (fun _ => []) [⟨("a.pdf").toList, [], 0, 0⟩] defaultCategories
        ⟨false, false, false, false, fun _ _ => true, fun _ _ => false⟩ 0
        ⟨[⟨[], ("a.pdf").toList⟩], [[]], []⟩
      = (⟨[⟨[], ("a.pdf").toList⟩], [[], [("Documents").toList]], []⟩, [],
          .ok (.done [] 0 0)) ∧
    ([(⟨("a.pdf").toList, [], 0, 0⟩ : FileEntry)].length = 1 ∧ 0 + 0 ≠ 1) :=
  ⟨rfl, by decide⟩

/-- Claim C6 amended: when a single move fails, the file is skipped (only
the destination directory creation persists), the loop continues and the
run still returns an ok outcome, and the failure leaves operations,
processedCount and skippedCount unchanged: only successful renames are
recorded and counted, and organize has no error counter, so a failed move
is visible solely as the file being absent from processedCount. -/
theorem moveFailureHandling_amended :
    (∀ (root : DirPath) (categories : List (Name × List Name)) (opts : Options)
        (st : OrgState) (file : FileEntry),
      opts.dryRun = false →
      opts.renameOk file.path (orgDest root categories opts st.sys.files file) = false →
      orgStep root categories opts st file
          = { st with skippedCount := st.skippedCount + 1 } ∨
      orgStep root categories opts st file
          = { st with sys := { st.sys with
                dirs := mkdirp st.sys.dirs (orgTargetSubDir root categories opts file) } }) ∧
    (∀ targetDir resolvePath filesToProcess categories opts timestamp (s : Sys),
      isBlankArg targetDir = false → resolvePath targetDir ∈ s.dirs →
      ∃ out, (organizeDirectory targetDir resolvePath filesToProcess categories opts
        timestamp s).2.2 = .ok out) ∧
    (∀ (root : DirPath) (categories : List (Name × List Name)) (opts : Options)
        (files : List FileEntry) (st : OrgState),
      (∀ op ∈ st.operations, opts.renameOk op.original op.movedTo = true) →
      ∀ op ∈ (List.foldl (orgStep root categories opts) st files).operations,
        opts.renameOk op.original op.movedTo = true) := by
  refine ⟨?_, ?_, ?_⟩
  · intro root categories opts st file hdry hfail
    simp only [orgStep]
    rw [if_neg (by simp [hdry])]
    split_ifs with h2 h3
    · exact Or.inl rfl
    · exact absurd (by simpa using h3.1) (by simp [hfail])
    · exact Or.inr rfl
  · intro targetDir resolvePath filesToProcess categories opts timestamp s hb hdir
    rw [organizeDirectory, if_neg (by simp [hb]), if_neg (fun h => h (Or.inl hdir)),
      if_neg (fun h => h hdir)]
    by_cases hlen : filesToProcess.length = 0
    · rw [if_pos hlen]
      exact ⟨.noFiles, rfl⟩
    · rw [if_neg hlen]
      exact ⟨_, rfl⟩
  · exact orgLoop_renameOk

/-- Witness for the amended claim C6 at a concrete input: a run whose
single rename fails still returns an ok outcome. -/
theorem moveFailureHandling_amended_witness :
    ∃ out, (organizeDirectory ("t") (fun _ => []) [⟨("a.pdf").toList, [], 0, 0⟩]
        defaultCategories ⟨false, false, false, false, fun _ _ => true, fun _ _ => false⟩ 0
        ⟨[⟨[], ("a.pdf").toList⟩], [[]], []⟩).2.2 = .ok out :=
  moveFailureHandling_amended.2.1 ("t") (fun _ => []) [⟨("a.pdf").toList, [], 0, 0⟩]
    defaultCategories ⟨false, false, false, false, fun _ _ => true, fun _ _ => false⟩ 0
    ⟨[⟨[], ("a.pdf").toList⟩], [[]], []⟩ (by decide) (by decide)

/-- Exhaustive case shape of an organize run: one of the three
precondition errors, the empty-candidate outcome, or the completed loop
with save and cleanup. -/
theorem organizeDirectory_shape (targetDir : String) (resolvePath : String → DirPath)
    (filesToProcess : List FileEntry) (categories : List (Name × List Name))
    (opts : Options) (timestamp : Nat) (s : Sys) :
    organizeDirectory targetDir resolvePath filesToProcess categories opts timestamp s
        = (s, [], .error ("Target directory must be a non-empty string")) ∨
    organizeDirectory targetDir resolvePath filesToProcess categories opts timestamp s
        = (s, [], .error ("Directory does not exist")) ∨
    organizeDirectory targetDir resolvePath filesToProcess categories opts timestamp s
        = (s, [], .error ("Path is not a directory")) ∨
    organizeDirectory targetDir resolvePath filesToProcess categories opts timestamp s
        = (s, [], .ok .noFiles) ∨
    organizeDirectory targetDir resolvePath filesToProcess categories opts timestamp s
        = (orgSaveCleanup (resolvePath targetDir) categories opts timestamp
             (orgLoop (resolvePath targetDir) categories opts s filesToProcess),
           (orgLoop (resolvePath targetDir) categories opts s filesToProcess).trace,
           .ok (.done
             (orgLoop (resolvePath targetDir) categories opts s filesToProcess).operations
             (orgLoop (resolvePath targetDir) categories opts s filesToProcess).processedCount
             (orgLoop (resolvePath targetDir) categories opts s
               filesToProcess).skippedCount)) := by
  by_cases hb : isBlankArg targetDir = true
  · exact Or.inl (by rw [organizeDirectory, if_pos (by simp [hb])])
  · by_cases hex : resolvePath targetDir ∈ s.dirs ∨
        ∃ f ∈ s.files, f.dir ++ [f.base] = resolvePath targetDir
    · by_cases hdir : resolvePath targetDir ∈ s.dirs
      · by_cases hlen : filesToProcess.length = 0
        · refine Or.inr (Or.inr (Or.inr (Or.inl ?_)))
          rw [organizeDirectory, if_neg (by simp [hb]), if_neg (not_not_intro hex),
            if_neg (not_not_intro hdir), if_pos hlen]
        · refine Or.inr (Or.inr (Or.inr (Or.inr ?_)))
          rw [organizeDirectory, if_neg (by simp [hb]), if_neg (not_not_intro hex),
            if_neg (not_not_intro hdir), if_neg hlen]
      · refine Or.inr (Or.inr (Or.inl ?_))
        rw [organizeDirectory, if_neg (by simp [hb]), if_neg (not_not_intro hex),
          if_pos hdir]
    · exact Or.inr (Or.inl (by rw [organizeDirectory, if_neg (by simp [hb]), if_pos hex]))

/-- Exhaustive case shape of an undo run: the blank-argument error, the
two nothing-to-undo outcomes, or the completed replay of the most recent
batch. -/
theorem undoOrganize_shape (targetDir : String) (resolvePath : String → DirPath)
    (renameOk : FsPath → FsPath → Bool) (s : Sys) :
    undoOrganize targetDir resolvePath renameOk s
        = (s, [], .error ("Target directory must be a non-empty string")) ∨
    undoOrganize targetDir resolvePath renameOk s = (s, [], .ok .noLog) ∨
    undoOrganize targetDir resolvePath renameOk s = (s, [], .ok .noOps) ∨
    (∃ log, readLog s (resolvePath targetDir) = some log ∧ log.length ≠ 0 ∧
      undoOrganize targetDir resolvePath renameOk s
        = (sweepCategoryDirs (resolvePath targetDir)
             (updateLog (undoLoop renameOk s (log.getLastD ⟨0, []⟩).operations).sys
               (resolvePath targetDir) log.dropLast),
           (undoLoop renameOk s (log.getLastD ⟨0, []⟩).operations).trace,
           .ok (.completed
             (undoLoop renameOk s (log.getLastD ⟨0, []⟩).operations).restoredCount
             (undoLoop renameOk s (log.getLastD ⟨0, []⟩).operations).errorCount))) := by
  by_cases hb : isBlankArg targetDir = true
  · exact Or.inl (by rw [undoOrganize, if_pos (by simp [hb])])
  · cases hread : readLog s (resolvePath targetDir) with
    | none =>
      refine Or.inr (Or.inl ?_)
      rw [undoOrganize, if_neg (by simp [hb])]
      simp [hread]
    | some log =>
      by_cases hlen : log.length = 0
      · refine Or.inr (Or.inr (Or.inl ?_))
        rw [undoOrganize, if_neg (by simp [hb])]
        simp [hread, hlen]
      · refine Or.inr (Or.inr (Or.inr ⟨log, rfl, hlen, ?_⟩))
        rw [undoOrganize, if_neg (by simp [hb])]
        simp [hread, hlen]

/-- Claim C1: every fs.rename performed by an organize run or an undo run
targets a destination absent from the disk at the moment of the move,
because each destination first passes through the Unique Path Resolver;
consequently a run started on a duplicate-free disk ends duplicate-free,
so no two files ever occupy the same path and no existing file is
silently overwritten. -/
theorem noOverwrite_invariant :
    (∀ targetDir resolvePath filesToProcess categories opts timestamp (s : Sys),
      ∀ e ∈ (organizeDirectory targetDir resolvePath filesToProcess categories opts
        timestamp s).2.1, e.dest ∉ e.diskBefore) ∧
    (∀ targetDir resolvePath renameOk (s : Sys),
      ∀ e ∈ (undoOrganize targetDir resolvePath renameOk s).2.1, e.dest ∉ e.diskBefore) ∧
    (∀ targetDir resolvePath filesToProcess categories opts timestamp (s : Sys),
      s.files.Nodup →
      (organizeDirectory targetDir resolvePath filesToProcess categories opts timestamp
        s).1.files.Nodup) ∧
    (∀ targetDir resolvePath renameOk (s : Sys), s.files.Nodup →
      (undoOrganize targetDir resolvePath renameOk s).1.files.Nodup) := by
  refine ⟨?_, ?_, ?_, ?_⟩
  · intro targetDir resolvePath filesToProcess categories opts timestamp s
    rcases organizeDirectory_shape targetDir resolvePath filesToProcess categories opts
      timestamp s with h | h | h | h | h <;> rw [h]
    · simp
    · simp
    · simp
    · simp
    · intro e he
      exact orgLoop_trace_fresh (resolvePath targetDir) categories opts filesToProcess
        ⟨s, [], 0, 0, []⟩ (by simp) e (by simpa [orgLoop] using he)
  · intro targetDir resolvePath renameOk s
    rcases undoOrganize_shape targetDir resolvePath renameOk s with
      h | h | h | ⟨log, _, _, h⟩ <;> rw [h]
    · simp
    · simp
    · simp
    · intro e he
      exact undoLoop_trace_fresh renameOk (log.getLastD ⟨0, []⟩).operations
        ⟨s, 0, 0, []⟩ (by simp) e (by simpa [undoLoop] using he)
  · intro targetDir resolvePath filesToProcess categories opts timestamp s hnd
    rcases organizeDirectory_shape targetDir resolvePath filesToProcess categories opts
      timestamp s with h | h | h | h | h <;> rw [h]
    · exact hnd
    · exact hnd
    · exact hnd
    · exact hnd
    · have := orgLoop_nodup (resolvePath targetDir) categories opts filesToProcess
        ⟨s, [], 0, 0, []⟩ (by simpa using hnd)
      simpa [orgSaveCleanup_files, orgLoop] using this
  · intro targetDir resolvePath renameOk s hnd
    rcases undoOrganize_shape targetDir resolvePath renameOk s with
      h | h | h | ⟨log, _, _, h⟩ <;> rw [h]
    · exact hnd
    · exact hnd
    · exact hnd
    · have := undoLoop_nodup renameOk (log.getLastD ⟨0, []⟩).operations
        ⟨s, 0, 0, []⟩ (by simpa using hnd)
      simpa [(sweepCategoryDirs_files_logs _ _).1, updateLog_files, undoLoop] using this

/-- Witness for claim C1 at a concrete input: a run on a duplicate-free
disk returns a duplicate-free disk. -/
theorem noOverwrite_invariant_witness :
    (organizeDirectory ("") (fun _ => []) [] []
        ⟨false, false, false, false, fun _ _ => true, fun _ _ => true⟩ 0
        ⟨[], [], []⟩).1.files.Nodup :=
  noOverwrite_invariant.2.2.1 ("") (fun _ => []) [] []
    ⟨false, false, false, false, fun _ _ => true, fun _ _ => true⟩ 0 ⟨[], [], []⟩ (by decide)

/-- Claim C8: the log records only real moves — dry runs change neither
state nor trace, the recorded operation list of a run equals its rename
trace (one record per physically performed rename, in order, each with a
succeeding rename), a zero-move run leaves the log untouched, and a
non-dry run with at least one successful move appends exactly one batch
holding its operations to the existing log. -/
theorem logOnlyRealMoves :
    (∀ targetDir resolvePath filesToProcess categories opts timestamp (s : Sys),
      opts.dryRun = true →
      (organizeDirectory targetDir resolvePath filesToProcess categories opts timestamp s).1
          = s ∧
      (organizeDirectory targetDir resolvePath filesToProcess categories opts timestamp
        s).2.1 = []) ∧
    (∀ targetDir resolvePath filesToProcess categories opts timestamp (s : Sys) s1 tr ops p k,
      organizeDirectory targetDir resolvePath filesToProcess categories opts timestamp s
          = (s1, tr, .ok (.done ops p k)) →
      ops = tr.map (fun e => (⟨e.src, e.dest⟩ : MoveOp)) ∧
      (∀ op ∈ ops, opts.renameOk op.original op.movedTo = true) ∧
      (ops = [] → s1.logs = s.logs) ∧
      (ops ≠ [] → opts.dryRun = false →
        lookupLog s1.logs (resolvePath targetDir)
          = some (.valid ((match lookupLog s.logs (resolvePath targetDir) with
              | some (.valid l) => l
              | _ => []) ++ [⟨timestamp, ops⟩])))) := by
  constructor
  · intro targetDir resolvePath filesToProcess categories opts timestamp s hdry
    rcases organizeDirectory_shape targetDir resolvePath filesToProcess categories opts
      timestamp s with h | h | h | h | h <;> rw [h]
    · exact ⟨rfl, rfl⟩
    · exact ⟨rfl, rfl⟩
    · exact ⟨rfl, rfl⟩
    · exact ⟨rfl, rfl⟩
    · have hfin : orgLoop (resolvePath targetDir) categories opts s filesToProcess
          = ⟨s, [], 0, 0, []⟩ := by
        unfold orgLoop
        exact orgLoop_dry (resolvePath targetDir) categories opts hdry filesToProcess _
      rw [hfin]
      exact ⟨by simp [orgSaveCleanup], rfl⟩
  · intro targetDir resolvePath filesToProcess categories opts timestamp s s1 tr ops p k hrun
    rcases organizeDirectory_shape targetDir resolvePath filesToProcess categories opts
      timestamp s with h | h | h | h | h <;> rw [h] at hrun
    · exact absurd (congrArg (fun q => q.2.2) hrun) (by simp)
    · exact absurd (congrArg (fun q => q.2.2) hrun) (by simp)
    · exact absurd (congrArg (fun q => q.2.2) hrun) (by simp)
    · exact absurd (congrArg (fun q => q.2.2) hrun) (by simp)
    · obtain ⟨hs1, htr, hout⟩ :
          orgSaveCleanup (resolvePath targetDir) categories opts timestamp
              (orgLoop (resolvePath targetDir) categories opts s filesToProcess) = s1 ∧
          (orgLoop (resolvePath targetDir) categories opts s filesToProcess).trace = tr ∧
          (OrgOutcome.done
            (orgLoop (resolvePath targetDir) categories opts s filesToProcess).operations
            (orgLoop (resolvePath targetDir) categories opts s filesToProcess).processedCount
            (orgLoop (resolvePath targetDir) categories opts s filesToProcess).skippedCount)
              = .done ops p k := by
        refine ⟨congrArg Prod.fst hrun, congrArg (fun q => q.2.1) hrun, ?_⟩
        have := congrArg (fun q => q.2.2) hrun
        simpa using this
      have hops : (orgLoop (resolvePath targetDir) categories opts s
          filesToProcess).operations = ops := (OrgOutcome.done.inj hout).1
      have hlogs : (orgLoop (resolvePath targetDir) categories opts s
          filesToProcess).sys.logs = s.logs := by
        unfold orgLoop
        exact orgLoop_logs (resolvePath targetDir) categories opts filesToProcess _
      refine ⟨?_, ?_, ?_, ?_⟩
      · rw [← hops, ← htr]
        unfold orgLoop
        exact orgLoop_ops_eq_trace (resolvePath targetDir) categories opts filesToProcess
          ⟨s, [], 0, 0, []⟩ (by simp)
      · rw [← hops]
        unfold orgLoop
        exact orgLoop_renameOk (resolvePath targetDir) categories opts filesToProcess
          ⟨s, [], 0, 0, []⟩ (by simp)
      · intro hempty
        rw [← hs1, orgSaveCleanup_logs, if_neg (by simp [hops, hempty]), hlogs]
      · intro hne hdry
        rw [← hs1, orgSaveCleanup_logs,
          if_pos ⟨List.length_pos.mpr (fun hx => hne (by rw [← hops, hx])), by simp [hdry]⟩]
        rw [saveLog]
        dsimp only
        rw [hlogs, lookupLog_setLog, hops]

/-- Witness for claim C8 at a concrete input: a dry run returns the state
unchanged and performs no renames. -/
theorem logOnlyRealMoves_witness :
    (organizeDirectory ("t") (fun _ => []) [⟨("a.pdf").toList, [], 0, 0⟩] defaultCategories
        ⟨false, true, false, false, fun _ _ => true, fun _ _ => true⟩ 0
        ⟨[⟨[], ("a.pdf").toList⟩], [[]], []⟩).1
      = ⟨[⟨[], ("a.pdf").toList⟩], [[]], []⟩ ∧
    (organizeDirectory ("t") (fun _ => []) [⟨("a.pdf").toList, [], 0, 0⟩] defaultCategories
        ⟨false, true, false, false, fun _ _ => true, fun _ _ => true⟩ 0
        ⟨[⟨[], ("a.pdf").toList⟩], [[]], []⟩).2.1 = [] :=
  logOnlyRealMoves.1 ("t") (fun _ => []) [⟨("a.pdf").toList, [], 0, 0⟩] defaultCategories
    ⟨false, true, false, false, fun _ _ => true, fun _ _ => true⟩ 0
    ⟨[⟨[], ("a.pdf").toList⟩], [[]], []⟩ (by decide)

/- ## Round-trip lemmas -/

/-- One organize iteration preserves the round-trip invariant. -/
theorem orgStep_OrgInv (root : DirPath) (categories : List (Name × List Name))
    (opts : Options) (f : FileEntry) (rest : List FileEntry) (st : OrgState)
    (hinv : OrgInv (f :: rest) st) :
    OrgInv rest (orgStep root categories opts st f) := by
  unfold OrgInv at hinv ⊢
  obtain ⟨hopsMem, hopsNd, hcandMem, hcandNd, hopsCand⟩ := hinv
  have hrestMem : ∀ g ∈ rest, g.path ∈ st.sys.files := fun g hg => hcandMem g (by simp [hg])
  have hpaths : ((f :: rest).map FileEntry.path).Nodup := hcandNd
  rw [List.map_cons, List.nodup_cons] at hpaths
  have hrestNd : (rest.map FileEntry.path).Nodup := hpaths.2
  have hfnotin : f.path ∉ rest.map FileEntry.path := hpaths.1
  have hopsRest : ∀ op ∈ st.operations, ∀ g ∈ rest, op.movedTo ≠ g.path :=
    fun op hop g hg => hopsCand op hop g (by simp [hg])
  rcases orgStep_cases root categories opts st f with ⟨_, heq⟩ | heq | heq |
    ⟨hok, hmemf, heq⟩ <;> rw [heq]
  · exact ⟨hopsMem, hopsNd, hrestMem, hrestNd, hopsRest⟩
  · exact ⟨hopsMem, hopsNd, hrestMem, hrestNd, hopsRest⟩
  · exact ⟨hopsMem, hopsNd, hrestMem, hrestNd, hopsRest⟩
  · have hfresh : orgDest root categories opts st.sys.files f ∉ st.sys.files :=
      getUniqueFilePath_not_mem st.sys.files _
    refine ⟨?_, ?_, ?_, hrestNd, ?_⟩
    · intro op hop
      rcases List.mem_append.mp hop with hop | hop
      · have h1 : op.movedTo ∈ st.sys.files := hopsMem op hop
        have h2 : op.movedTo ≠ f.path := hopsCand op hop f (by simp)
        exact List.mem_append_left _ ((List.mem_erase_of_ne h2).mpr h1)
      · rw [List.mem_singleton.mp hop]
        exact List.mem_append_right _ (by simp)
    · rw [List.map_append]
      refine List.Nodup.append hopsNd (by simp) ?_
      intro a ha hb
      simp only [List.map_cons, List.map_nil, List.mem_singleton] at hb
      rw [hb] at ha
      obtain ⟨op, hop, heqop⟩ := List.mem_map.mp ha
      exact hfresh (heqop ▸ hopsMem op hop)
    · intro g hg
      have h1 : g.path ∈ st.sys.files := hrestMem g hg
      have h2 : g.path ≠ f.path := fun hgf => hfnotin (hgf ▸ List.mem_map_of_mem _ hg)
      exact List.mem_append_left _ ((List.mem_erase_of_ne h2).mpr h1)
    · intro op hop g hg
      rcases List.mem_append.mp hop with hop | hop
      · exact hopsRest op hop g hg
      · rw [List.mem_singleton.mp hop]
        intro hde
        dsimp only at hde
        exact hfresh (by rw [hde]; exact hrestMem g hg)

/-- The organize loop preserves the round-trip invariant to the end of
the candidate list. -/
theorem orgLoop_OrgInv (root : DirPath) (categories : List (Name × List Name))
    (opts : Options) :
    ∀ (files : List FileEntry) (st : OrgState), OrgInv files st →
      OrgInv [] (List.foldl (orgStep root categories opts) st files) := by
  intro files
  induction files with
  | nil => intro st h; exact h
  | cons f rest ih =>
    intro st h
    rw [List.foldl_cons]
    exact ih _ (orgStep_OrgInv root categories opts f rest st h)

/-- One undo iteration with an existing moved file and a succeeding
rename records the restoration. -/
theorem undoStep_success (renameOk : FsPath → FsPath → Bool) (st : UndoState) (op : MoveOp)
    (hmem : op.movedTo ∈ st.sys.files)
    (hok : renameOk op.movedTo (getUniqueFilePath st.sys.files op.original) = true) :
    undoStep renameOk st op
      = { st with
          sys := { st.sys with files := st.sys.files.erase op.movedTo
            ++ [getUniqueFilePath st.sys.files op.original] },
          restoredCount := st.restoredCount + 1,
          trace := st.trace ++ [⟨op.movedTo, getUniqueFilePath st.sys.files op.original,
            st.sys.files⟩] } := by
  simp only [undoStep]
  rw [if_pos hmem, if_pos (by simp [hok])]

/-- A clean undo replay: with every rename succeeding and the invariant
holding, every pending operation is restored, no error is counted, and
the trace pairs each operation with a rename from its recorded
destination to a counter-decorated variant of its original path, the
original path itself whenever that path is free. -/
theorem undoLoop_clean (renameOk : FsPath → FsPath → Bool)
    (hren : ∀ a b, renameOk a b = true) :
    ∀ (operations : List MoveOp) (st : UndoState), UndoInv operations st →
      (List.foldl (undoStep renameOk) st operations).restoredCount
          = st.restoredCount + operations.length ∧
      (List.foldl (undoStep renameOk) st operations).errorCount = st.errorCount ∧
      (∃ tr, (List.foldl (undoStep renameOk) st operations).trace = st.trace ++ tr ∧
        List.Forall₂ (fun (op : MoveOp) (e : RenameEvent) =>
          e.src = op.movedTo ∧ (∃ k, e.dest = candidatePath op.original k) ∧
          (op.original ∉ e.diskBefore → e.dest = op.original)) operations tr) ∧
      (∀ e ∈ (List.foldl (undoStep renameOk) st operations).trace,
        e.dest ∈ (List.foldl (undoStep renameOk) st operations).sys.files) := by
  intro operations
  induction operations with
  | nil =>
    intro st hinv
    exact ⟨rfl, rfl, ⟨[], by simp, List.Forall₂.nil⟩, hinv.2.2.1⟩
  | cons op rest ih =>
    intro st hinv
    obtain ⟨hopsMem, hopsNd, htraceMem, htraceOps⟩ := hinv
    have hmem : op.movedTo ∈ st.sys.files := hopsMem op (by simp)
    have hfresh : getUniqueFilePath st.sys.files op.original ∉ st.sys.files :=
      getUniqueFilePath_not_mem st.sys.files op.original
    have hnd : ((op :: rest).map MoveOp.movedTo).Nodup := hopsNd
    rw [List.map_cons, List.nodup_cons] at hnd
    have hstep := undoStep_success renameOk st op hmem (hren _ _)
    rw [List.foldl_cons, hstep]
    have hinv' : UndoInv rest
        { st with
          sys := { st.sys with files := st.sys.files.erase op.movedTo
            ++ [getUniqueFilePath st.sys.files op.original] },
          restoredCount := st.restoredCount + 1,
          trace := st.trace ++ [⟨op.movedTo, getUniqueFilePath st.sys.files op.original,
            st.sys.files⟩] } := by
      refine ⟨?_, hnd.2, ?_, ?_⟩
      · intro op' hop'
        have h1 : op'.movedTo ∈ st.sys.files := hopsMem op' (by simp [hop'])
        have h2 : op'.movedTo ≠ op.movedTo := by
          intro hcontra
          exact hnd.1 (hcontra ▸ List.mem_map_of_mem _ hop')
        exact List.mem_append_left _ ((List.mem_erase_of_ne h2).mpr h1)
      · intro e he
        rcases List.mem_append.mp he with he | he
        · have h1 : e.dest ∈ st.sys.files := htraceMem e he
          have h2 : e.dest ≠ op.movedTo := htraceOps e he op (by simp)
          exact List.mem_append_left _ ((List.mem_erase_of_ne h2).mpr h1)
        · rw [List.mem_singleton.mp he]
          exact List.mem_append_right _ (by simp)
      · intro e he op' hop'
        rcases List.mem_append.mp he with he | he
        · exact htraceOps e he op' (by simp [hop'])
        · rw [List.mem_singleton.mp he]
          intro hcontra
          dsimp only at hcontra
          exact hfresh (by rw [hcontra]; exact hopsMem op' (by simp [hop']))
    obtain ⟨hres, herr, ⟨tr, htr, hfa⟩, hmemall⟩ := ih _ hinv'
    refine ⟨by rw [hres]; simp; omega, herr, ⟨⟨op.movedTo,
      getUniqueFilePath st.sys.files op.original, st.sys.files⟩ :: tr, ?_, ?_⟩, hmemall⟩
    · rw [htr]
      simp
    · refine List.Forall₂.cons ⟨rfl, getUniqueFilePath_exists_index st.sys.files op.original,
        ?_⟩ hfa
      intro hnotin
      exact getUniqueFilePath_eq_candidate st.sys.files op.original 0
        (fun m hm => absurd hm (by omega)) hnotin

/-- Pointwise facts can be pushed into a Forall₂ relation. -/
theorem forall₂_and_right {α β : Type} (R : α → β → Prop) (Q : β → Prop) :
    ∀ (l1 : List α) (l2 : List β), List.Forall₂ R l1 l2 → (∀ b ∈ l2, Q b) →
      List.Forall₂ (fun a b => R a b ∧ Q b) l1 l2 := by
  intro l1 l2 hfa
  induction hfa with
  | nil => intro _; exact List.Forall₂.nil
  | cons hr _ ih =>
    intro hq
    exact List.Forall₂.cons ⟨hr, hq _ (by simp)⟩ (ih (fun b hb => hq b (by simp [hb])))

/-- Claim C2: round-trip.  Organizing a directory whose log file is absent
and then immediately undoing it restores every successfully moved file:
undo performs exactly one rename per recorded operation, moving the file
at movedTo back to the original path itself whenever that path is free
and to a counter-decorated variant of it otherwise, reports them all
restored with zero errors, leaves every restored file on the final disk,
and once the single batch has been undone the log file no longer
exists. -/
theorem organizeUndo_roundTrip (targetDir : String) (resolvePath : String → DirPath)
    (filesToProcess : List FileEntry) (categories : List (Name × List Name))
    (opts : Options) (timestamp : Nat) (s : Sys) (renameOkUndo : FsPath → FsPath → Bool)
    (hdry : opts.dryRun = false)
    (hlog0 : lookupLog s.logs (resolvePath targetDir) = none)
    (hcand : ∀ f ∈ filesToProcess, f.path ∈ s.files)
    (hcnodup : (filesToProcess.map FileEntry.path).Nodup)
    (hren : ∀ a b, renameOkUndo a b = true)
    (s1 : Sys) (trace1 : List RenameEvent) (ops : List MoveOp) (p k : Nat)
    (hrun : organizeDirectory targetDir resolvePath filesToProcess categories opts
      timestamp s = (s1, trace1, .ok (.done ops p k))) :
    lookupLog (undoOrganize targetDir resolvePath renameOkUndo s1).1.logs
        (resolvePath targetDir) = none ∧
    (ops ≠ [] →
      (undoOrganize targetDir resolvePath renameOkUndo s1).2.2
        = .ok (.completed ops.length 0)) ∧
    List.Forall₂ (fun (op : MoveOp) (e : RenameEvent) =>
      (e.src = op.movedTo ∧ (∃ n, e.dest = candidatePath op.original n) ∧
        (op.original ∉ e.diskBefore → e.dest = op.original)) ∧
      e.dest ∈ (undoOrganize targetDir resolvePath renameOkUndo s1).1.files)
      ops (undoOrganize targetDir resolvePath renameOkUndo s1).2.1 := by
  have hblank : isBlankArg targetDir = false := by
    rcases hb : isBlankArg targetDir with _ | _
    · rfl
    · rw [organizeDirectory, if_pos (by simp [hb])] at hrun
      exact absurd (congrArg (fun q => q.2.2) hrun) (by simp)
  rcases organizeDirectory_shape targetDir resolvePath filesToProcess categories opts
    timestamp s with h | h | h | h | h <;> rw [h] at hrun
  · exact absurd (congrArg (fun q => q.2.2) hrun) (by simp)
  · exact absurd (congrArg (fun q => q.2.2) hrun) (by simp)
  · exact absurd (congrArg (fun q => q.2.2) hrun) (by simp)
  · exact absurd (congrArg (fun q => q.2.2) hrun) (by simp)
  have hs1 : orgSaveCleanup (resolvePath targetDir) categories opts timestamp
      (orgLoop (resolvePath targetDir) categories opts s filesToProcess) = s1 :=
    congrArg Prod.fst hrun
  have hout := congrArg (fun q => q.2.2) hrun
  simp only [] at hout
  have hops : (orgLoop (resolvePath targetDir) categories opts s
      filesToProcess).operations = ops :=
    (OrgOutcome.done.inj (Except.ok.inj hout)).1
  have hFlogs : (orgLoop (resolvePath targetDir) categories opts s filesToProcess).sys.logs
      = s.logs := by
    unfold orgLoop
    exact orgLoop_logs (resolvePath targetDir) categories opts filesToProcess _
  have hInv : OrgInv [] (orgLoop (resolvePath targetDir) categories opts s
      filesToProcess) := by
    unfold orgLoop
    refine orgLoop_OrgInv (resolvePath targetDir) categories opts filesToProcess
      ⟨s, [], 0, 0, []⟩ ?_
    exact ⟨by simp, by simp, hcand, hcnodup, by simp⟩
  have hopsMemF : ∀ op ∈ ops, op.movedTo ∈
      (orgLoop (resolvePath targetDir) categories opts s filesToProcess).sys.files := by
    rw [← hops]
    exact hInv.1
  have hopsNd : (ops.map MoveOp.movedTo).Nodup := by
    rw [← hops]
    exact hInv.2.1
  have hs1files : s1.files
      = (orgLoop (resolvePath targetDir) categories opts s filesToProcess).sys.files := by
    rw [← hs1, orgSaveCleanup_files]
  by_cases hempty : ops = []
  · subst hempty
    have hs1logs : s1.logs = s.logs := by
      rw [← hs1, orgSaveCleanup_logs, if_neg (by simp [hops]), hFlogs]
    have hread1 : readLog s1 (resolvePath targetDir) = none := by
      rw [readLog, hs1logs, hlog0]
    have hundo : undoOrganize targetDir resolvePath renameOkUndo s1
        = (s1, [], .ok .noLog) := by
      rw [undoOrganize, if_neg (by simp [hblank])]
      simp [hread1]
    rw [hundo]
    exact ⟨by simpa [hs1logs] using hlog0, by simp, List.Forall₂.nil⟩
  · have hs1logs : s1.logs = setLog
        (orgLoop (resolvePath targetDir) categories opts s filesToProcess).sys.logs
        (resolvePath targetDir) (.valid [⟨timestamp, ops⟩]) := by
      rw [← hs1, orgSaveCleanup_logs,
        if_pos ⟨List.length_pos.mpr (fun hx => hempty (by rw [← hops, hx])),
          by simp [hdry]⟩]
      rw [saveLog]
      dsimp only
      rw [hFlogs, hlog0, hops]
      simp
    have hread1 : readLog s1 (resolvePath targetDir) = some [⟨timestamp, ops⟩] := by
      rw [readLog, hs1logs, lookupLog_setLog]
    have hundo : undoOrganize targetDir resolvePath renameOkUndo s1
        = (sweepCategoryDirs (resolvePath targetDir)
             (updateLog (undoLoop renameOkUndo s1 ops).sys (resolvePath targetDir) []),
           (undoLoop renameOkUndo s1 ops).trace,
           .ok (.completed (undoLoop renameOkUndo s1 ops).restoredCount
             (undoLoop renameOkUndo s1 ops).errorCount)) := by
      rw [undoOrganize, if_neg (by simp [hblank])]
      simp [hread1]
    have hinv0 : UndoInv ops (⟨s1, 0, 0, []⟩ : UndoState) := by
      refine ⟨?_, hopsNd, by simp, by simp⟩
      intro op hop
      rw [show (⟨s1, 0, 0, []⟩ : UndoState).sys.files = s1.files from rfl, hs1files]
      exact hopsMemF op hop
    have hclean := undoLoop_clean renameOkUndo hren ops ⟨s1, 0, 0, []⟩ hinv0
    obtain ⟨hres, herr, ⟨tr, htr, hfa⟩, hmemall⟩ := hclean
    have hloopEq : undoLoop renameOkUndo s1 ops
        = List.foldl (undoStep renameOkUndo) ⟨s1, 0, 0, []⟩ ops := rfl
    rw [hundo]
    have hs2files : (sweepCategoryDirs (resolvePath targetDir)
        (updateLog (undoLoop renameOkUndo s1 ops).sys (resolvePath targetDir) [])).files
        = (undoLoop renameOkUndo s1 ops).sys.files := by
      rw [(sweepCategoryDirs_files_logs _ _).1, updateLog_files]
    refine ⟨?_, ?_, ?_⟩
    · rw [(sweepCategoryDirs_files_logs _ _).2]
      rw [show (updateLog (undoLoop renameOkUndo s1 ops).sys (resolvePath targetDir)
          []).logs = removeLog (undoLoop renameOkUndo s1 ops).sys.logs
          (resolvePath targetDir) from by rw [updateLog, if_neg (by simp)]]
      exact lookupLog_removeLog _ _
    · intro _
      rw [hloopEq, hres, herr]
      simp
    · rw [hloopEq, htr]
      simp only [List.nil_append]
      refine forall₂_and_right _ _ ops tr hfa ?_
      intro e he
      rw [show (sweepCategoryDirs (resolvePath targetDir)
          (updateLog (List.foldl (undoStep renameOkUndo) ⟨s1, 0, 0, []⟩ ops).sys
            (resolvePath targetDir) [])).files
          = (List.foldl (undoStep renameOkUndo) ⟨s1, 0, 0, []⟩ ops).sys.files from by
        rw [(sweepCategoryDirs_files_logs _ _).1, updateLog_files]]
      apply hmemall
      rw [htr]
      simpa using he

/-- Witness for claim C2 at a concrete input: one file organized from a
fresh directory and then undone; after the round trip the log file is
gone, the undo reports one restoration and no error, and the single
rename of the undo moved the file back onto its free original path. -/
theorem organizeUndo_roundTrip_witness :
    lookupLog (undoOrganize ("t") (fun _ => []) (fun _ _ => true)
        ⟨[⟨[("Documents").toList], ("a.pdf").toList⟩], [[], [("Documents").toList]],
          [([], .valid [⟨0, [⟨⟨[], ("a.pdf").toList⟩,
            ⟨[("Documents").toList], ("a.pdf").toList⟩⟩]⟩])]⟩).1.logs [] = none ∧
    ([⟨(⟨[], ("a.pdf").toList⟩ : FsPath), ⟨[("Documents").toList], ("a.pdf").toList⟩⟩]
        ≠ ([] : List MoveOp) →
      (undoOrganize ("t") (fun _ => []) (fun _ _ => true)
        ⟨[⟨[("Documents").toList], ("a.pdf").toList⟩], [[], [("Documents").toList]],
          [([], .valid [⟨0, [⟨⟨[], ("a.pdf").toList⟩,
            ⟨[("Documents").toList], ("a.pdf").toList⟩⟩]⟩])]⟩).2.2
        = .ok (.completed ([⟨(⟨[], ("a.pdf").toList⟩ : FsPath),
            ⟨[("Documents").toList], ("a.pdf").toList⟩⟩] : List MoveOp).length 0)) ∧
    List.Forall₂ (fun (op : MoveOp) (e : RenameEvent) =>
      (e.src = op.movedTo ∧ (∃ n, e.dest = candidatePath op.original n) ∧
        (op.original ∉ e.diskBefore → e.dest = op.original)) ∧
      e.dest ∈ (undoOrganize ("t") (fun _ => []) (fun _ _ => true)
        ⟨[⟨[("Documents").toList], ("a.pdf").toList⟩], [[], [("Documents").toList]],
          [([], .valid [⟨0, [⟨⟨[], ("a.pdf").toList⟩,
            ⟨[("Documents").toList], ("a.pdf").toList⟩⟩]⟩])]⟩).1.files)
      [⟨(⟨[], ("a.pdf").toList⟩ : FsPath), ⟨[("Documents").toList], ("a.pdf").toList⟩⟩]
      (undoOrganize ("t") (fun _ => []) (fun _ _ => true)
        ⟨[⟨[("Documents").toList], ("a.pdf").toList⟩], [[], [("Documents").toList]],
          [([], .valid [⟨0, [⟨⟨[], ("a.pdf").toList⟩,
            ⟨[("Documents").toList], ("a.pdf").toList⟩⟩]⟩])]⟩).2.1 :=
  organizeUndo_roundTrip ("t") (fun _ => []) [⟨("a.pdf").toList, [], 0, 0⟩]
    defaultCategories ⟨false, false, false, false, fun _ _ => true, fun _ _ => true⟩ 0
    ⟨[⟨[], ("a.pdf").toList⟩], [[]], []⟩ (fun _ _ => true) rfl rfl (by decide) (by decide)
    (fun _ _ => rfl)
    ⟨[⟨[("Documents").toList], ("a.pdf").toList⟩], [[], [("Documents").toList]],
      [([], .valid [⟨0, [⟨⟨[], ("a.pdf").toList⟩,
        ⟨[("Documents").toList], ("a.pdf").toList⟩⟩]⟩])]⟩
    [⟨⟨[], ("a.pdf").toList⟩, ⟨[("Documents").toList], ("a.pdf").toList⟩,
      [⟨[], ("a.pdf").toList⟩]⟩]
    [⟨⟨[], ("a.pdf").toList⟩, ⟨[("Documents").toList], ("a.pdf").toList⟩⟩] 1 0 (by rfl)

end Segre
